import Mathlib

/-!
Verification of the tttc (talk-to-the-city) pipeline core: a shallow
embedding of the four-stage LLM orchestration pipeline from
`pyserver/main.py`, `pyserver/utils.py` and the JSON response parser in
`ollama-tests/tests/phase3_integration/json_response_parser.py`.

Python data is modelled as follows: Python `dict`s (which preserve
insertion order) become association lists with first-key-wins lookup and
in-place update; Python strings become `String`/`List Char`; JSON floats
are not needed by any claim, so JSON numbers are modelled as `Int` and the
0/0.5/1 opinion scores of stage 4 as `ℚ` (sums of halves are exact in
binary floating point, so `ℚ` is a faithful model there); fallible Python
code (uncaught exceptions) returns `Except PyErr`.
-/

namespace TTTC

/-- Uncaught Python exception kinds that the embedded code can raise. -/
inductive PyErr where
  | indexError : PyErr
  | valueError : PyErr
  | keyError : PyErr
  | unboundLocalError : PyErr
  | typeError : PyErr
  | attributeError : PyErr
deriving DecidableEq, Repr

/-! ### Python `dict` model: insertion-ordered association lists -/

/-- `d[k]` as an option: first binding of `k` wins (Python dicts have
unique keys; our `set` preserves that). -/
def alistGet {K V : Type} [DecidableEq K] (k : K) : List (K × V) → Option V
  | [] => none
  | (k', v) :: rest => if k = k' then some v else alistGet k rest

/-- `d[k] = v`: update the existing binding in place, else append at the
end (Python dict insertion-order semantics). -/
def alistSet {K V : Type} [DecidableEq K] (k : K) (v : V) : List (K × V) → List (K × V)
  | [] => [(k, v)]
  | (k', v') :: rest =>
    if k = k' then (k, v) :: rest else (k', v') :: alistSet k v rest

/-- `k in d`. -/
def alistMem {K V : Type} [DecidableEq K] (k : K) (d : List (K × V)) : Bool :=
  (alistGet k d).isSome

/-! ### Python string helpers -/

instance {ε α : Type} [DecidableEq ε] [DecidableEq α] : DecidableEq (Except ε α) := fun
  | .error e, .error e' =>
    if h : e = e' then isTrue (by rw [h]) else isFalse (by simp [h])
  | .error _, .ok _ => isFalse (by simp)
  | .ok _, .error _ => isFalse (by simp)
  | .ok a, .ok b =>
    if h : a = b then isTrue (by rw [h]) else isFalse (by simp [h])

/-! ### Python string primitives over `List Char`

Core `String` functions such as `String.splitOn` and `String.trim` do not
reduce inside the kernel, so the Python string operations the pipeline
uses are modelled directly over `List Char`. -/

abbrev Chars := List Char

/-- ASCII whitespace recognized by Python's `str.strip()` and by `\s` in
its regexes: space, `\t`, `\n`, `\r`, `\v` (0x0b), `\f` (0x0c). (Python
also treats some Unicode spaces as whitespace; no claim exercises them.) -/
def isPyWs (c : Char) : Bool :=
  c = ' ' ∨ c = '\t' ∨ c = '\n' ∨ c = '\r' ∨ c = '\x0b' ∨ c = '\x0c'

/-- Whitespace accepted by the JSON grammar (`json.loads`). -/
def isJsonWs (c : Char) : Bool :=
  c = ' ' ∨ c = '\t' ∨ c = '\n' ∨ c = '\r'

/-- Drop leading JSON whitespace. -/
def skipJsonWs : Chars → Chars
  | [] => []
  | c :: rest => if isJsonWs c then skipJsonWs rest else c :: rest

/-- Drop leading Python whitespace. -/
def dropPyWs : Chars → Chars
  | [] => []
  | c :: rest => if isPyWs c then dropPyWs rest else c :: rest

/-- Python `s.strip()`. -/
def pyStrip (cs : Chars) : Chars :=
  ((dropPyWs cs.reverse).reverse : Chars) |> dropPyWs

/-- Python `s.rstrip()`. -/
def pyRstrip (cs : Chars) : Chars :=
  (dropPyWs cs.reverse).reverse

/-- Does `pat` occur as a prefix of `cs`? -/
def startsWithChars : Chars → Chars → Bool
  | [], _ => true
  | _ :: _, [] => false
  | p :: ps, c :: rest => p = c ∧ startsWithChars ps rest

/-- Python `sub in s` / `s.find(sub) >= 0` for a non-empty pattern. -/
def containsSub (pat : Chars) : Chars → Bool
  | [] => startsWithChars pat []
  | c :: rest => startsWithChars pat (c :: rest) ∨ containsSub pat rest

/-- Python `s.count(sub)` (non-overlapping occurrences, left to right),
fuel-structural so it evaluates in the kernel; call with `fuel = |cs|`. -/
def countSubAux (pat : Chars) : Nat → Chars → Nat
  | 0, _ => 0
  | _ + 1, [] => 0
  | fuel + 1, c :: rest =>
    if startsWithChars pat (c :: rest) then
      1 + countSubAux pat fuel ((c :: rest).drop pat.length)
    else
      countSubAux pat fuel rest

/-- Python `s.count(sub)` for non-empty `sub`. -/
def countSub (pat cs : Chars) : Nat := countSubAux pat cs.length cs

/-- Python `s.split(sep)` for a non-empty separator `sep`: split on
non-overlapping occurrences left to right, keeping empty pieces. -/
def pySplitAux (sep : Chars) : Nat → Chars → Chars → List Chars
  | 0, acc, rest => [acc.reverse ++ rest]
  | _ + 1, acc, [] => [acc.reverse]
  | fuel + 1, acc, c :: rest =>
    if startsWithChars sep (c :: rest) then
      acc.reverse :: pySplitAux sep fuel [] ((c :: rest).drop sep.length)
    else
      pySplitAux sep fuel (c :: acc) rest

/-- Python `s.split(sep)` for non-empty `sep`; always non-empty. -/
def pySplit (sep : String) (s : String) : List String :=
  (pySplitAux sep.toList s.toList.length [] s.toList).map List.asString

/-- Python `int(s)` restricted to the inputs that matter here: optional
whitespace, an optional sign, then a non-empty run of decimal digits.
(Python additionally accepts underscore digit grouping, which no claim
exercises.) Raises `ValueError` otherwise. -/
def pyInt (s : String) : Except PyErr Int :=
  let t := pyStrip s.toList
  let neg := startsWithChars ['-'] t
  let core := if neg ∨ startsWithChars ['+'] t then t.drop 1 else t
  if core.length > 0 ∧ core.all Char.isDigit then
    let n : Nat := core.foldl (fun a c => 10 * a + (c.toNat - 48)) 0
    .ok (if neg then -(n : Int) else (n : Int))
  else
    .error .valueError

/-- Python `lst[i]` on a `List`: `IndexError` when out of range. -/
def pyIndex {α : Type} (l : List α) (i : Nat) : Except PyErr α :=
  match l.get? i with
  | some a => .ok a
  | none => .error .indexError

/-- `claim_key.split("Id")[1]` followed by `int(...)`: the nesting-key
parser of `sort_claims_tree` (main.py:1084). -/
def parseClaimKey (claim_key : String) : Except PyErr Int := do
  let parts := pySplit "Id" claim_key
  let s ← pyIndex parts 1
  pyInt s

/-- Python `s.lower()` (ASCII; Python also lowercases non-ASCII letters,
which no claim exercises). -/
def pyLower (s : String) : String :=
  (s.toList.map (fun c =>
    if 'A' ≤ c ∧ c ≤ 'Z' then Char.ofNat (c.toNat + 32) else c)).asString

/-- `s.split(":")[0]`: the part of `s` before its first `:` (all of `s`
when there is none), as in the agree/disagree normalization
(main.py:1491-1492). `pySplit` never returns `[]`, so the default of
`headD` is unreachable. -/
def beforeColon (s : String) : String :=
  (pySplit ":" s).headD ""

/-! ### JSON values

Parsed JSON values as the pipeline sees them. Python dicts preserve
insertion order, hence `obj` carries an ordered association list. JSON
numbers are modelled as `Int`: no claim exercises fractions or exponents.
-/

inductive Json where
  | null
  | bool (b : Bool)
  | num (n : Int)
  | str (s : String)
  | arr (elts : List Json)
  | obj (fields : List (String × Json))

mutual

/-- Boolean equality on JSON values (structural recursion over the nested
inductive, so it evaluates in the kernel). -/
def Json.beq : Json → Json → Bool
  | .null, .null => true
  | .bool a, .bool b => a == b
  | .num a, .num b => a == b
  | .str a, .str b => a == b
  | .arr xs, .arr ys => Json.beqList xs ys
  | .obj xs, .obj ys => Json.beqFields xs ys
  | _, _ => false
termination_by structural j => j

def Json.beqList : List Json → List Json → Bool
  | [], [] => true
  | x :: xs, y :: ys => Json.beq x y && Json.beqList xs ys
  | _, _ => false
termination_by structural l => l

def Json.beqFields : List (String × Json) → List (String × Json) → Bool
  | [], [] => true
  | (k, x) :: xs, (k', y) :: ys => k == k' && Json.beq x y && Json.beqFields xs ys
  | _, _ => false
termination_by structural l => l

end

/-- Python truthiness of a parsed JSON value (`if result:`): `None`,
`False`, `0`, `""`, `[]` and `.obj []` are falsy, everything else truthy. -/
def jsonTruthy : Json → Bool
  | .null => false
  | .bool b => b
  | .num n => n ≠ 0
  | .str s => s.length ≠ 0
  | .arr xs => ¬ xs.isEmpty
  | .obj fs => ¬ fs.isEmpty

/-! ### Serialization: `json.dumps` with default options -/

/-- Decimal digits of `n`, most significant first; fuel-structural so it
evaluates in the kernel. Call through `natChars` with `fuel = n + 1`. -/
def natCharsAux : Nat → Nat → Chars
  | 0, _ => []
  | fuel + 1, n =>
    if n < 10 then [Char.ofNat (48 + n)]
    else natCharsAux fuel (n / 10) ++ [Char.ofNat (48 + n % 10)]

/-- Decimal digits of a natural number, e.g. `natChars 40 = ['4','0']`. -/
def natChars (n : Nat) : Chars := natCharsAux (n + 1) n

/-- Decimal rendering of an integer as Python prints it. -/
def intChars (n : Int) : Chars :=
  if n < 0 then '-' :: natChars n.natAbs else natChars n.natAbs

/-- One hexadecimal digit (lower case), for `\uXXXX` escapes. -/
def hexDigit (n : Nat) : Char :=
  if n < 10 then Char.ofNat (48 + n) else Char.ofNat (97 + (n - 10))

/-- String-body escaping of `json.dumps` with its default
`ensure_ascii=True`: `"` and `\` get a backslash, the control and
non-ASCII characters become `\uXXXX` (with the common short forms), all
other ASCII characters stand for themselves. -/
def escapeJsonChar (c : Char) : Chars :=
  if c = '"' then ['\\', '"']
  else if c = '\\' then ['\\', '\\']
  else if c = '\n' then ['\\', 'n']
  else if c = '\t' then ['\\', 't']
  else if c = '\r' then ['\\', 'r']
  else if c = '\x08' then ['\\', 'b']
  else if c = '\x0c' then ['\\', 'f']
  else if c.toNat < 32 ∨ c.toNat > 126 then
    let n := c.toNat
    ['\\', 'u', hexDigit (n / 4096 % 16), hexDigit (n / 256 % 16),
     hexDigit (n / 16 % 16), hexDigit (n % 16)]
  else [c]

/-- A serialized JSON string literal, quotes included. -/
def dumpStringChars (s : String) : Chars :=
  '"' :: s.toList.flatMap escapeJsonChar ++ ['"']

mutual

/-- `json.dumps(v)` with the default separators `", "` and `": "`,
producing the exact character stream Python produces on the values the
claims exercise. -/
def Json.dumps : Json → Chars
  | .null => "null".toList
  | .bool b => (if b then "true" else "false").toList
  | .num n => intChars n
  | .str s => dumpStringChars s
  | .arr xs => '[' :: Json.dumpsList xs ++ [']']
  | .obj fs => '\x7b' :: Json.dumpsFields fs ++ ['\x7d']
termination_by structural j => j

def Json.dumpsList : List Json → Chars
  | [] => []
  | [x] => Json.dumps x
  | x :: y :: rest => Json.dumps x ++ ',' :: ' ' :: Json.dumpsList (y :: rest)
termination_by structural l => l

def Json.dumpsFields : List (String × Json) → Chars
  | [] => []
  | [(k, v)] => dumpStringChars k ++ ':' :: ' ' :: Json.dumps v
  | (k, v) :: f :: rest =>
    dumpStringChars k ++ ':' :: ' ' :: Json.dumps v ++ ',' :: ' ' :: Json.dumpsFields (f :: rest)
termination_by structural l => l

end

/-- `json.dumps` as a `String`. -/
def dumpsStr (j : Json) : String := (Json.dumps j).asString

/-! ### Parsing: `json.loads`

A recursive-descent model of `json.loads` on the grammar subset the
claims exercise: objects, arrays, strings with escapes, integers and the
three literals. Deviations from CPython, none of which any claim
reaches: fractional/exponent number syntax is rejected rather than
parsed as a float, and `\uXXXX` surrogate pairs become two code points.
Duplicate object keys follow Python (`dict` semantics: first position,
last value) via `alistSet`. The mutually recursive part is structural on
an explicit fuel so that it evaluates in the kernel; `loads` supplies
`|input| + 1`, which is more than any parse can consume. -/

/-- Value of a hexadecimal digit. -/
def hexVal (c : Char) : Option Nat :=
  if '0' ≤ c ∧ c ≤ '9' then some (c.toNat - 48)
  else if 'a' ≤ c ∧ c ≤ 'f' then some (c.toNat - 87)
  else if 'A' ≤ c ∧ c ≤ 'F' then some (c.toNat - 55)
  else none

/-- Body of a JSON string literal after the opening quote; returns the
decoded string and the characters after the closing quote. -/
def parseStringBody (acc : Chars) : Chars → Option (String × Chars)
  | [] => none
  | '"' :: rest => some (acc.reverse.asString, rest)
  | '\\' :: e :: rest =>
    match e with
    | '"' => parseStringBody ('"' :: acc) rest
    | '\\' => parseStringBody ('\\' :: acc) rest
    | '/' => parseStringBody ('/' :: acc) rest
    | 'b' => parseStringBody ('\x08' :: acc) rest
    | 'f' => parseStringBody ('\x0c' :: acc) rest
    | 'n' => parseStringBody ('\n' :: acc) rest
    | 'r' => parseStringBody ('\r' :: acc) rest
    | 't' => parseStringBody ('\t' :: acc) rest
    | 'u' =>
      match rest with
      | a :: b :: c :: d :: rest' =>
        match hexVal a, hexVal b, hexVal c, hexVal d with
        | some ha, some hb, some hc, some hd =>
          let n := ((ha * 16 + hb) * 16 + hc) * 16 + hd
          -- 0xd800-0xdfff are not scalar values; map them to
          -- the replacement-style placeholder Char.ofNat yields.
          parseStringBody (Char.ofNat n :: acc) rest'
        | _, _, _, _ => none
      | _ => none
    | _ => none
  | c :: rest =>
    if c.toNat < 32 then none else parseStringBody (c :: acc) rest

/-- Is `c` an ASCII decimal digit? (Same test as `Char.isDigit`, stated
over `toNat` so proofs can reason arithmetically about digit characters.) -/
def isDigitChar (c : Char) : Bool := 48 ≤ c.toNat ∧ c.toNat ≤ 57

/-- Does the head of `cs`, if any, fail the test `p`? This is the
condition under which `takeWhile p` and `dropWhile p` stop exactly at
`cs`. -/
def headFails (p : Char → Bool) : Chars → Prop
  | [] => True
  | c :: _ => p c = false

/-- JSON unsigned integer: `0`, or a nonzero digit followed by digits
(the integer part of CPython's `NUMBER_RE`). -/
def parseUnsignedNum : Chars → Option (Nat × Chars)
  | [] => none
  | c :: rest =>
    if c = '0' then some (0, rest)
    else if isDigitChar c then
      let ds := c :: rest.takeWhile isDigitChar
      some (ds.foldl (fun a d => 10 * a + (d.toNat - 48)) 0, rest.dropWhile isDigitChar)
    else none

/-- JSON integer with optional minus sign. -/
def parseNumber : Chars → Option (Int × Chars)
  | [] => none
  | c :: rest =>
    if c = '-' then (parseUnsignedNum rest).map (fun p => (-(p.1 : Int), p.2))
    else (parseUnsignedNum (c :: rest)).map (fun p => ((p.1 : Int), p.2))

mutual

/-- Parse one JSON value at the current position (no leading whitespace
expected, as in CPython's scanner); returns the value and the rest. -/
def parseVal : Nat → Chars → Option (Json × Chars)
  | 0, _ => none
  | fuel + 1, cs =>
    match cs with
    | [] => none
    | '\x7b' :: rest =>
      (match skipJsonWs rest with
       | '\x7d' :: r2 => some (.obj [], r2)
       | r1 => parseObjItems fuel r1 [])
    | '[' :: rest =>
      (match skipJsonWs rest with
       | ']' :: r2 => some (.arr [], r2)
       | r1 => parseArrItems fuel r1 [])
    | '"' :: rest => (parseStringBody [] rest).map (fun p => (.str p.1, p.2))
    | c :: _ =>
      if startsWithChars ['t', 'r', 'u', 'e'] cs then some (.bool true, cs.drop 4)
      else if startsWithChars ['f', 'a', 'l', 's', 'e'] cs then some (.bool false, cs.drop 5)
      else if startsWithChars ['n', 'u', 'l', 'l'] cs then some (.null, cs.drop 4)
      else if c = '-' ∨ isDigitChar c then (parseNumber cs).map (fun p => (.num p.1, p.2))
      else none

/-- Array elements after `[` (first element not yet parsed, at least one
present). -/
def parseArrItems : Nat → Chars → List Json → Option (Json × Chars)
  | 0, _, _ => none
  | fuel + 1, cs, acc =>
    match parseVal fuel cs with
    | none => none
    | some (v, r) =>
      match skipJsonWs r with
      | ',' :: r2 => parseArrItems fuel (skipJsonWs r2) (acc ++ [v])
      | ']' :: r2 => some (.arr (acc ++ [v]), r2)
      | _ => none

/-- Object members after `\x7b` (at least one present). -/
def parseObjItems : Nat → Chars → List (String × Json) → Option (Json × Chars)
  | 0, _, _ => none
  | fuel + 1, cs, acc =>
    match cs with
    | '"' :: rest =>
      (match parseStringBody [] rest with
       | none => none
       | some (k, r) =>
         match skipJsonWs r with
         | ':' :: r2 =>
           (match parseVal fuel (skipJsonWs r2) with
            | none => none
            | some (v, r3) =>
              match skipJsonWs r3 with
              | ',' :: r5 => parseObjItems fuel (skipJsonWs r5) (alistSet k v acc)
              | '\x7d' :: r5 => some (.obj (alistSet k v acc), r5)
              | _ => none)
         | _ => none)
    | _ => none

end

/-- `json.loads` on a character list: skip leading whitespace, parse one
value, require only whitespace after it (`Extra data` otherwise). -/
def loadsChars (cs : Chars) : Option Json :=
  let cs1 := skipJsonWs cs
  match parseVal (cs1.length + 1) cs1 with
  | some (v, rest) => if skipJsonWs rest = [] then some v else none
  | none => none

/-- `json.loads` on a string. -/
def loads (s : String) : Option Json := loadsChars s.toList

/-! ### The JSON extractor (`json_response_parser.py`)

Each regex of the source is implemented as an explicit scanner with
Python `re` semantics: leftmost match, alternatives in order, greedy and
lazy repetition as marked, scan position advancing by one on a failed
start. -/

/-- `clean_json_comments` per-line scan: position of the first `//` that
lies outside a string literal, tracking `in_string`/`escape_next`
(json_response_parser.py:26-47). -/
def commentScan (in_string escape_next : Bool) (i : Nat) : Chars → Option Nat
  | [] => none
  | c :: rest =>
    if escape_next then commentScan in_string false (i + 1) rest
    else if c = '\\' then commentScan in_string true (i + 1) rest
    else if c = '"' ∧ ¬ escape_next then commentScan (¬ in_string) escape_next (i + 1) rest
    else if ¬ in_string ∧ c = '/' ∧ startsWithChars ['/'] rest then some i
    else commentScan in_string escape_next (i + 1) rest

/-- One line of `clean_json_comments`: cut at the comment, `rstrip`. -/
def cleanLine (line : Chars) : Chars :=
  match commentScan false false 0 line with
  | some p => pyRstrip (line.take p)
  | none => line

/-- `'\n'.join`. -/
def joinLines : List Chars → Chars
  | [] => []
  | [l] => l
  | l :: ls => l ++ '\n' :: joinLines ls

/-- `clean_json_comments(json_str)`: split on newlines, strip `//`
comments outside strings, drop lines that are blank after stripping,
rejoin (json_response_parser.py:13-55). -/
def clean_json_comments (cs : Chars) : Chars :=
  let lines := pySplitAux ['\n'] cs.length [] cs
  joinLines ((lines.map cleanLine).filter (fun l => ¬ (pyStrip l).isEmpty))

/-- `json.loads(x)` and, on failure, `json.loads(clean_json_comments(x))`
— the recurring fallback pair of the extractor. -/
def tryLoadsWithCleaning (cs : Chars) : Option Json :=
  match loadsChars cs with
  | some v => some v
  | none => loadsChars (clean_json_comments cs)

/-- The lazy body of `(\{.*?\})\s*` + closing fence: find the earliest
`\x7d` that is followed by optional whitespace and three backticks;
return the brace group. -/
def fenceBody (acc : Chars) : Chars → Option Chars
  | [] => none
  | c :: rest =>
    if c = '\x7d' ∧ startsWithChars ['`', '`', '`'] (dropPyWs rest) then
      some ('\x7b' :: (acc.reverse ++ ['\x7d']))
    else fenceBody (c :: acc) rest

/-- Attempt the markdown pattern with the scan position just past an
opening triple backtick: optional `json`, whitespace, then the lazy brace
group. When `json` follows the fence the empty alternative of
`(?:json)?` can never succeed (the next character is `j`, not `\x7b` and
not whitespace), so committing to it is faithful. -/
def fenceAttempt (cs : Chars) : Option Chars :=
  let cs1 := if startsWithChars ['j', 's', 'o', 'n'] cs then cs.drop 4 else cs
  match dropPyWs cs1 with
  | '\x7b' :: body => fenceBody [] body
  | _ => none

/-- `re.search` for ```` ```(?:json)?\s*(\{.*?\})\s*``` ````: leftmost
opening fence whose attempt completes (json_response_parser.py:99-100). -/
def searchFence : Chars → Option Chars
  | [] => none
  | c :: rest =>
    if startsWithChars ['`', '`', '`'] (c :: rest) then
      match fenceAttempt ((c :: rest).drop 3) with
      | some g => some g
      | none => searchFence rest
    else searchFence rest

/-- `extract_json_from_markdown` (json_response_parser.py:89-113). -/
def extract_json_from_markdown (cs : Chars) : Option Json :=
  (searchFence cs).bind (fun g => tryLoadsWithCleaning (pyStrip g))

/-- The greedy tail of `</think>\s*(\{.*\})`: after whitespace expect
`\x7b`, then the group runs to the last `\x7d` of the input. -/
def thinkAttempt (cs : Chars) : Option Chars :=
  match dropPyWs cs with
  | '\x7b' :: body =>
    let r := body.reverse.dropWhile (fun c => c ≠ '\x7d')
    if r.isEmpty then none else some ('\x7b' :: r.reverse)
  | _ => none

/-- `re.search` for `</think>\s*(\{.*\})` (json_response_parser.py:126-127). -/
def searchThink : Chars → Option Chars
  | [] => none
  | c :: rest =>
    if startsWithChars ['<', '/', 't', 'h', 'i', 'n', 'k', '>'] (c :: rest) then
      match thinkAttempt ((c :: rest).drop 8) with
      | some g => some g
      | none => searchThink rest
    else searchThink rest

/-- `extract_json_after_think_tags` (json_response_parser.py:116-140). -/
def extract_json_after_think_tags (cs : Chars) : Option Json :=
  (searchThink cs).bind (fun g => tryLoadsWithCleaning (pyStrip g))

/-- The literal head `\x7b"claims":` of the claims-object pattern. -/
def claimsKeyChars : Chars :=
  ['\x7b', '"', 'c', 'l', 'a', 'i', 'm', 's', '"', ':']

/-- The lazy tail of `\[.*?\]\s*\}`: earliest `]` followed by optional
whitespace and `\x7d`; returns the matched tail and the characters after
the match. -/
def lazyClaimsClose (acc : Chars) : Chars → Option (Chars × Chars)
  | [] => none
  | c :: rest =>
    if c = ']' then
      match rest.dropWhile isPyWs with
      | '\x7d' :: rest2 =>
        some (acc.reverse ++ ']' :: rest.takeWhile isPyWs ++ ['\x7d'], rest2)
      | _ => lazyClaimsClose (c :: acc) rest
    else lazyClaimsClose (c :: acc) rest

/-- Match `\{"claims":\s*\[.*?\]\s*\}` anchored at the current position;
returns the whole match and the rest of the input after it. -/
def claimsMatchAt (cs : Chars) : Option (Chars × Chars) :=
  if startsWithChars claimsKeyChars cs then
    let afterKey := cs.drop claimsKeyChars.length
    match afterKey.dropWhile isPyWs with
    | '[' :: body =>
      (lazyClaimsClose [] body).map
        (fun p => (claimsKeyChars ++ afterKey.takeWhile isPyWs ++ '[' :: p.1, p.2))
    | _ => none
  else none

/-- `re.findall` for the claims-object pattern: non-overlapping matches
left to right, resuming after each match. Fuel bounds the number of
steps; each step advances at least one character, so `|cs|` is enough. -/
def findallClaimsAux : Nat → Chars → List Chars
  | 0, _ => []
  | _ + 1, [] => []
  | fuel + 1, c :: rest =>
    match claimsMatchAt (c :: rest) with
    | some (m, after) => m :: findallClaimsAux fuel after
    | none => findallClaimsAux fuel rest

/-- All matches of `(\{"claims":\s*\[.*?\]\s*\})` in `cs`. -/
def findallClaims (cs : Chars) : List Chars := findallClaimsAux cs.length cs

/-- `obj["claims"]` when `"claims" in obj and isinstance(obj["claims"],
list)`. -/
def getClaimsList : Json → Option (List Json)
  | .obj fs =>
    match alistGet "claims" fs with
    | some (.arr l) => some l
    | _ => none
  | _ => none

/-- `extract_multiple_json_objects` (json_response_parser.py:58-86):
when more than one claims object matches, parse each match
(`JSONDecodeError` skips it) and concatenate the claims arrays; return
the combined object if any claims were collected. -/
def extract_multiple_json_objects (cs : Chars) : Option Json :=
  let ms := findallClaims cs
  if ms.length > 1 then
    let all_claims := ms.foldl
      (fun acc m =>
        match loadsChars (pyStrip m) with
        | some obj =>
          match getClaimsList obj with
          | some l => acc ++ l
          | none => acc
        | none => acc)
      []
    if ¬ all_claims.isEmpty then some (.obj [("claims", .arr all_claims)]) else none
  else none

/-- First index of `pat` in `cs` (`s.find(sub)` when present). -/
def findSubIdx (pat : Chars) : Chars → Option Nat
  | [] => if pat.isEmpty then some 0 else none
  | c :: rest =>
    if startsWithChars pat (c :: rest) then some 0
    else (findSubIdx pat rest).map (· + 1)

/-- Last index of character `c` in `cs` (`s.rfind(c)` when present). -/
def rfindIdx (c : Char) (cs : Chars) : Option Nat :=
  (findSubIdx [c] cs.reverse).map (fun i => cs.length - 1 - i)

/-- The tail `\s*\]?\s*\x7d` of the strategy-5 taxonomy pattern, applied
after a candidate closing brace; returns the consumed characters. When
the optional `]` is taken but `\s*\x7d` fails after it, the alternative
without `]` would have to match `\x7d` against that same `]`, so failing
outright is faithful. -/
def tax5After (rest : Chars) : Option Chars :=
  let ws1 := rest.takeWhile isPyWs
  match rest.dropWhile isPyWs with
  | ']' :: r2 =>
    let ws2 := r2.takeWhile isPyWs
    (match r2.dropWhile isPyWs with
     | '\x7d' :: _ => some (ws1 ++ ']' :: ws2 ++ ['\x7d'])
     | _ => none)
  | '\x7d' :: _ => some (ws1 ++ ['\x7d'])
  | _ => none

/-- The lazy `.*?` of strategy 5: earliest closing brace whose tail
completes. `head` is the already-matched `\x7b"taxonomy"` literal. -/
def tax5Lazy (head : Chars) (acc : Chars) : Chars → Option Chars
  | [] => none
  | c :: rest =>
    if c = '\x7d' then
      match tax5After rest with
      | some tail => some (head ++ acc.reverse ++ '\x7d' :: tail)
      | none => tax5Lazy head (c :: acc) rest
    else tax5Lazy head (c :: acc) rest

/-- The literal head `\x7b"taxonomy"` shared by strategies 5 and 6. -/
def taxonomyKeyChars : Chars :=
  ['\x7b', '"', 't', 'a', 'x', 'o', 'n', 'o', 'm', 'y', '"']

/-- `re.search` for `(\{"taxonomy".*?\}\s*\]?\s*\})`
(json_response_parser.py:327). -/
def searchTax5 : Chars → Option Chars
  | [] => none
  | c :: rest =>
    if startsWithChars taxonomyKeyChars (c :: rest) then
      match tax5Lazy taxonomyKeyChars [] ((c :: rest).drop taxonomyKeyChars.length) with
      | some g => some g
      | none => searchTax5 rest
    else searchTax5 rest

/-- The quoted literal `"taxonomy"` of strategy 6. -/
def taxonomyLitChars : Chars :=
  ['"', 't', 'a', 'x', 'o', 'n', 'o', 'm', 'y', '"']

/-- Attempt `(\{[^\x7b\x7d]*"taxonomy"[^\x7b\x7d]*\[.*?\]\s*\})` at a
position starting with `\x7b`: both greedy character classes prefer the
longest run (so the rightmost `"taxonomy"` and the rightmost `[` inside
the brace-free run are tried first), then the lazy tail reuses the
`\]\s*\x7d` closer. -/
def tax6At (cs : Chars) : Option Chars :=
  match cs with
  | '\x7b' :: body =>
    let nb := body.takeWhile (fun c => c ≠ '\x7b' ∧ c ≠ '\x7d')
    let qs := (List.range (nb.length + 1)).filter
      (fun q => startsWithChars taxonomyLitChars (nb.drop q))
    qs.reverse.findSome? (fun q =>
      let afterLit := nb.drop (q + 10)
      let rs := (List.range afterLit.length).filter (fun r => afterLit.get? r = some '[')
      rs.reverse.findSome? (fun r =>
        (lazyClaimsClose [] (body.drop (q + 10 + r + 1))).map
          (fun p => '\x7b' :: body.take (q + 10 + r) ++ '[' :: p.1)))
  | _ => none

/-- `re.search` for the strategy-6 pattern (json_response_parser.py:336). -/
def searchTax6 : Chars → Option Chars
  | [] => none
  | c :: rest =>
    if c = '\x7b' then
      match tax6At (c :: rest) with
      | some g => some g
      | none => searchTax6 rest
    else searchTax6 rest

/-- `extract_json_by_pattern` (json_response_parser.py:143-172)
specialized to its three call sites: strip the captured group, apply the
`taxonomy` brace-appending branch when requested (dead in practice: the
group always ends in `\x7d`), then parse with the comment-cleaning
fallback. -/
def extract_by_pattern (isTaxonomyField : Bool) (g : Chars) : Option Json :=
  let g1 := pyStrip g
  let g2 :=
    if isTaxonomyField ∧ ¬ (g1.getLast? = some '\x7d') then g1 ++ ['\x7d'] else g1
  tryLoadsWithCleaning g2

/-- `re.search` for the claims-object pattern (strategy 7,
json_response_parser.py:344): first match only. -/
def searchClaims : Chars → Option Chars
  | [] => none
  | c :: rest =>
    match claimsMatchAt (c :: rest) with
    | some (m, _) => some m
    | none => searchClaims rest

/-- Lower-case one ASCII character (for `re.IGNORECASE`). -/
def lowerChar (c : Char) : Char :=
  if 'A' ≤ c ∧ c ≤ 'Z' then Char.ofNat (c.toNat + 32) else c

/-- Case-insensitive prefix test. -/
def ciStartsWith : Chars → Chars → Bool
  | [], _ => true
  | _ :: _, [] => false
  | p :: ps, c :: rest => lowerChar p = lowerChar c ∧ ciStartsWith ps rest

/-- Everything up to and including the first `\x7d` (the lazy group
`(\{.*?\})` of strategy 8, with no further continuation). -/
def firstBraceClose (acc : Chars) : Chars → Option Chars
  | [] => none
  | c :: rest =>
    if c = '\x7d' then some (acc.reverse ++ ['\x7d'])
    else firstBraceClose (c :: acc) rest

/-- The continuation `:\s*(\{.*?\})` of strategy 8 after a matched
keyword. -/
def afterTextAttempt (cs : Chars) : Option Chars :=
  match cs with
  | ':' :: rest =>
    (match dropPyWs rest with
     | '\x7b' :: body => (firstBraceClose [] body).map ('\x7b' :: ·)
     | _ => none)
  | _ => none

/-- The alternation `(?:output|result|JSON|taxonomy|claims)` of strategy
8; the five keywords begin with distinct letters, so at most one can
match at a position. -/
def textKeywords : List Chars :=
  [['o', 'u', 't', 'p', 'u', 't'], ['r', 'e', 's', 'u', 'l', 't'],
   ['J', 'S', 'O', 'N'], ['t', 'a', 'x', 'o', 'n', 'o', 'm', 'y'],
   ['c', 'l', 'a', 'i', 'm', 's']]

/-- `re.search` for `(?:output|result|JSON|taxonomy|claims):\s*(\{.*?\})`
with `IGNORECASE` (json_response_parser.py:185-186). -/
def searchAfterText : Chars → Option Chars
  | [] => none
  | c :: rest =>
    match textKeywords.findSome? (fun kw =>
      if ciStartsWith kw (c :: rest) then afterTextAttempt ((c :: rest).drop kw.length)
      else none) with
    | some g => some g
    | none => searchAfterText rest

/-- `extract_json_after_text` (json_response_parser.py:175-195): parse
the stripped group, with no comment-cleaning fallback. -/
def extract_json_after_text (cs : Chars) : Option Json :=
  (searchAfterText cs).bind (fun g => loadsChars (pyStrip g))

/-- The shorter literal `\x7b"claims"` counted and searched by
`repair_malformed_json`. -/
def claimsLitChars : Chars :=
  ['\x7b', '"', 'c', 'l', 'a', 'i', 'm', 's', '"']

/-- The brace-depth walk of `repair_malformed_json`
(json_response_parser.py:231-240): index of the character where the
depth returns to zero via a closing brace, if it ever does. -/
def braceScan (depth : Int) (i : Nat) : Chars → Option Nat
  | [] => none
  | c :: rest =>
    if c = '\x7b' then braceScan (depth + 1) (i + 1) rest
    else if c = '\x7d' then
      (if depth - 1 = 0 then some i else braceScan (depth - 1) (i + 1) rest)
    else braceScan depth (i + 1) rest

/-- Does the parsed object satisfy `"claims" in obj`? (Every string fed
to it here starts with `\x7b`, so the parse is an object.) -/
def hasClaimsKey : Json → Bool
  | .obj fs => alistMem "claims" fs
  | _ => false

/-- The `while '\x7b"claims"' in temp` loop of `repair_malformed_json`
(json_response_parser.py:225-252): cut out brace-balanced objects one at
a time, keeping those that parse and have a `claims` key. Each round
drops at least one character, so `|temp|` steps of fuel suffice. -/
def repairLoop : Nat → Chars → List Json → List Json
  | 0, _, objects => objects
  | fuel + 1, temp, objects =>
    match findSubIdx claimsLitChars temp with
    | some start =>
      let seg := temp.drop start
      (match braceScan 0 0 seg with
       | some endRel =>
         let obj_str := seg.take (endRel + 1)
         let objects' :=
           match loadsChars obj_str with
           | some o => if hasClaimsKey o then objects ++ [o] else objects
           | none => objects
         repairLoop fuel (seg.drop (endRel + 1)) objects'
       | none => objects)
    | none => objects

/-- `repair_malformed_json` (json_response_parser.py:198-273): take the
substring from the first `\x7b` to the last `\x7d`; if it holds more
than one `\x7b"claims"` occurrence, split on brace depth and merge the
claims arrays; otherwise (or if the merge yields nothing) parse it with
the comment-cleaning fallback. -/
def repair_malformed_json (cs : Chars) : Option Json :=
  if ¬ containsSub ['\x7b'] cs ∨ ¬ containsSub ['\x7d'] cs then none
  else
    match findSubIdx ['\x7b'] cs, rfindIdx '\x7d' cs with
    | some start, some endIdx =>
      if endIdx ≤ start then none
      else
        let json_content := (cs.drop start).take (endIdx - start + 1)
        let merged : Option Json :=
          if countSub claimsLitChars json_content > 1 then
            let objects := repairLoop json_content.length json_content []
            (if ¬ objects.isEmpty then
              let all_claims := objects.foldl
                (fun acc o =>
                  match getClaimsList o with
                  | some l => acc ++ l
                  | none => acc)
                []
              if ¬ all_claims.isEmpty then some (.obj [("claims", .arr all_claims)])
              else none
             else none)
          else none
        (match merged with
         | some v => some v
         | none => tryLoadsWithCleaning json_content)
    | _, _ => none

/-- `if result: return result` over the strategy results in order:
return the first truthy one (Python's `None` and the empty dict are both
falsy). -/
def firstTruthy : List (Option Json) → Option Json
  | [] => none
  | r :: rs =>
    match r with
    | some v => if jsonTruthy v then some v else firstTruthy rs
    | none => firstTruthy rs

/-- `extract_json_from_response` (json_response_parser.py:276-360): the
nine-strategy chain. Strategy 1 returns whatever parses; strategies 2-9
are each guarded by Python truthiness; exhaustion raises `ValueError`. -/
def extract_json_from_response (content : String) : Except PyErr Json :=
  if content.toList.isEmpty then .error .valueError
  else
    let cs := pyStrip content.toList
    match tryLoadsWithCleaning cs with
    | some v => .ok v
    | none =>
      match firstTruthy
        [extract_json_from_markdown cs,
         extract_json_after_think_tags cs,
         extract_multiple_json_objects cs,
         (searchTax5 cs).bind (extract_by_pattern true),
         (searchTax6 cs).bind (extract_by_pattern false),
         (searchClaims cs).bind (extract_by_pattern false),
         extract_json_after_text cs,
         repair_malformed_json cs] with
      | some v => .ok v
      | none => .error .valueError

/-! ### Stage 1 — taxonomy normalization (`comments_to_tree`, main.py:279-304) -/

/-- Python `str(v)` on a parsed JSON value, as an f-string would render
it. Exact for strings (the only case Stage 1's claims reach); for other
values an approximation via the JSON rendering is used, with Python's
spellings for the literals. -/
def pyStrJson : Json → String
  | .str s => s
  | .bool true => "True"
  | .bool false => "False"
  | .null => "None"
  | v => (Json.dumps v).asString

/-- The synthesized default subtopic for `topic_name`
(main.py:300-303). -/
def synthSubtopic (topic_name : String) : Json :=
  .obj [("subtopicName", .str ("General " ++ topic_name)),
        ("subtopicShortDescription", .str ("General aspects of " ++ pyLower topic_name))]

/-- Per-topic normalization (the body of the `for topic in
tree["taxonomy"]` loop, main.py:293-304): non-dict topics pass through
(`continue`); a topic whose `subtopics` key is missing or not a list gets
the single synthesized subtopic, with `topic.get("topicName", "Unknown
Topic")` naming it. -/
def normTopic (topic : Json) : Json :=
  match topic with
  | .obj fields =>
    (match alistGet "subtopics" fields with
     | some (.arr _) => topic
     | _ =>
       let topic_name :=
         match alistGet "topicName" fields with
         | some v => pyStrJson v
         | none => "Unknown Topic"
       .obj (alistSet "subtopics" (.arr [synthSubtopic topic_name]) fields))
  | _ => topic

/-- The unconditional Stage 1 normalization of the extracted tree
(main.py:279-304): coerce a non-dict to `\x7b"taxonomy": []\x7d`, force a
missing or non-list `taxonomy` to `[]`, then normalize each topic in
place. -/
def normalizeTaxonomyTree (tree0 : Json) : Json :=
  let tree1 :=
    match tree0 with
    | .obj _ => tree0
    | _ => .obj [("taxonomy", .arr [])]
  let tree2 :=
    match tree1 with
    | .obj fs => if alistMem "taxonomy" fs then tree1 else .obj (alistSet "taxonomy" (.arr []) fs)
    | _ => tree1
  let tree3 :=
    match tree2 with
    | .obj fs =>
      (match alistGet "taxonomy" fs with
       | some (.arr _) => tree2
       | _ => .obj (alistSet "taxonomy" (.arr []) fs))
    | _ => tree2
  match tree3 with
  | .obj fs =>
    (match alistGet "taxonomy" fs with
     | some (.arr topics) => .obj (alistSet "taxonomy" (.arr (topics.map normTopic)) fs)
     | _ => tree3)
  | _ => tree3

/-- The `taxonomy` array of a normalized tree (empty for shapes the
normalization never produces). -/
def taxonomyList (tree : Json) : List Json :=
  match tree with
  | .obj fs =>
    (match alistGet "taxonomy" fs with
     | some (.arr topics) => topics
     | _ => [])
  | _ => []

/-- The list of topics the normalization loop iterates over: the
`taxonomy` value after the coercion steps (equals `taxonomyList` of the
input when that value is a list, `[]` otherwise). -/
def rawTopics (tree0 : Json) : List Json := taxonomyList tree0

/-- Number of subtopics of a topic (`len(topic["subtopics"])` when that
key holds a list, `0` otherwise). -/
def subtopicCount (topic : Json) : Nat :=
  match topic with
  | .obj fields =>
    (match alistGet "subtopics" fields with
     | some (.arr subs) => subs.length
     | _ => 0)
  | _ => 0

/-- Does the topic carry a list-valued `subtopics` key? (The condition
under which main.py:297 skips synthesis.) -/
def hasListSubtopics (topic : Json) : Bool :=
  match topic with
  | .obj fields =>
    (match alistGet "subtopics" fields with
     | some (.arr _) => true
     | _ => false)
  | _ => false

/-- Is the value a Python dict? -/
def isJsonDict : Json → Bool
  | .obj _ => true
  | _ => false

/-! ### Stage 2 — tree coverage fill-in (`all_comments_to_claims`, main.py:687-711) -/

/-- A claim as Stage 3 sees it: the dict fields its control flow reads.
Copies (`\x7bk: v for k, v in claim.items()\x7d`) preserve any other
fields, so they are not modelled. `claimId` is the field the duplicate
lookup of main.py:1128 searches for — Stage 2 never writes it. -/
structure PyClaim where
  claim : String := ""
  quote : String := ""
  speaker : Option String := none
  claimId : Option Int := none
  duplicated : Option Bool := none
deriving DecidableEq, Repr

/-- A Stage 2 subtopic bucket: `\x7btotal, claims, speakers\x7d`. -/
structure S2Sub where
  total : Int := 0
  claims : List PyClaim := []
  speakers : List String := []
deriving DecidableEq, Repr

/-- A Stage 2 topic node: `\x7btotal, speakers, subtopics\x7d`. -/
structure S2Topic where
  total : Int := 0
  speakers : List String := []
  subtopics : List (String × S2Sub) := []
deriving DecidableEq, Repr

/-- The accumulated `node_counts` ClaimTree. -/
abbrev NodeCounts := List (String × S2Topic)

/-- A taxonomy subtopic as the fill-in loop reads it (`subtopicName`
only). -/
structure TaxSubtopic where
  subtopicName : String
deriving DecidableEq, Repr

/-- A taxonomy topic as the fill-in loop reads it: `topicName`, and the
`subtopics` list when the key is present (`"subtopics" in topic`). -/
structure TaxTopic where
  topicName : String
  subtopics : Option (List TaxSubtopic) := none
deriving DecidableEq, Repr

/-- The empty bucket `\x7b"total": 0, "claims": [], "speakers": set()\x7d`. -/
def emptyS2Sub : S2Sub := ⟨0, [], []⟩

/-- One subtopic iteration of the coverage pass (main.py:690-711): under
an existing topic, a missing subtopic gets an empty bucket; an absent
topic is created with the single placeholder subtopic `"None"` — the
current subtopic is not added in that iteration. -/
def coverSubStep (topicName : String) (nc : NodeCounts) (sub : TaxSubtopic) : NodeCounts :=
  match alistGet topicName nc with
  | some tn =>
    if alistMem sub.subtopicName tn.subtopics then nc
    else
      alistSet topicName
        { tn with subtopics := alistSet sub.subtopicName emptyS2Sub tn.subtopics } nc
  | none =>
    alistSet topicName
      { total := 0, speakers := [], subtopics := [("None", emptyS2Sub)] } nc

/-- One topic iteration of the coverage pass: skipped when the topic has
no `subtopics` key (main.py:689). -/
def coverTopicStep (nc : NodeCounts) (topic : TaxTopic) : NodeCounts :=
  match topic.subtopics with
  | none => nc
  | some subs => subs.foldl (coverSubStep topic.topicName) nc

/-- The post-placement coverage pass of `all_comments_to_claims`
(main.py:687-711). -/
def ensureCoverage (taxonomy : List TaxTopic) (node_counts : NodeCounts) : NodeCounts :=
  taxonomy.foldl coverTopicStep node_counts

/-- Does the ClaimTree hold a bucket for `(t, s)`? -/
def subMem (nc : NodeCounts) (t s : String) : Bool :=
  match alistGet t nc with
  | some tn => alistMem s tn.subtopics
  | none => false

/-! ### Stage 3 — deduplication and sorting (`sort_claims_tree`, main.py:818-1281)

Python `set`s of speakers are modelled as insertion-ordered duplicate-free
lists (`setAdd`/`setUnion`); only their size and contents flow onward, not
Python's hash ordering. -/

/-- `s.add(x)`. -/
def setAdd (l : List String) (x : String) : List String :=
  if l.contains x then l else l ++ [x]

/-- `s.union(xs)`. -/
def setUnion (l : List String) (xs : List String) : List String :=
  xs.foldl setAdd l

/-- Python `len(v)` on a parsed JSON value (`TypeError` on numbers,
booleans and `None`). -/
def pyLenJson : Json → Except PyErr Nat
  | .arr xs => .ok xs.length
  | .obj fs => .ok fs.length
  | .str s => .ok s.length
  | _ => .error .typeError

/-- Python `for x in v` on a parsed JSON value: lists yield their
elements, strings their characters (as one-character strings), dicts
their keys. -/
def pyIterJson : Json → Except PyErr (List Json)
  | .arr xs => .ok xs
  | .str s => .ok (s.toList.map (fun c => .str ([c].asString)))
  | .obj fs => .ok (fs.map (fun kv => .str kv.1))
  | _ => .error .typeError

/-- `int(dupe_claim_key.split("Id")[1])` where the key came out of a
parsed JSON list; a non-string raises (`.split` on a non-string is an
`AttributeError`). -/
def parseClaimKeyJson : Json → Except PyErr Int
  | .str s => parseClaimKey s
  | _ => .error .attributeError

/-- `claim_set[dupe].append(other_id)` for each new id: extend a list
with the ids it does not already contain, in order (main.py:1096-1099). -/
def extendUnique (l : List Int) (xs : List Int) : List Int :=
  xs.foldl (fun acc o => if acc.contains o then acc else acc ++ [o]) l

/-- Close one nesting entry into the symmetric `claim_set`
(main.py:1089-1101): every element of `[claim_id] + dupe_ids` maps to
all the others. -/
def closeNestingEntry (cs : List (Int × List Int)) (claim_id : Int) (dupe_ids : List Int) :
    List (Int × List Int) :=
  let all_dupes := claim_id :: dupe_ids
  all_dupes.enum.foldl
    (fun cs p =>
      let other_ids := (all_dupes.enum.filter (fun q => q.1 ≠ p.1)).map Prod.snd
      match alistGet p.2 cs with
      | some l => alistSet p.2 (extendUnique l other_ids) cs
      | none => alistSet p.2 other_ids cs)
    cs

/-- Build `claim_set` from the `nesting` dict (main.py:1080-1101). Each
entry with a non-empty value list has its key and values parsed with
`int(key.split("Id")[1])`; parse failures propagate uncaught. -/
def buildClaimSet (nesting : List (String × Json)) : Except PyErr (List (Int × List Int)) :=
  nesting.foldlM
    (fun cs entry => do
      let n ← pyLenJson entry.2
      if n > 0 then do
        let claim_id ← parseClaimKey entry.1
        let vals ← pyIterJson entry.2
        let dupe_ids ← vals.mapM parseClaimKeyJson
        pure (closeNestingEntry cs claim_id dupe_ids)
      else
        pure cs)
    []

/-- A canonical claim of the dedup fold: the copied claim dict plus its
`duplicates` list. -/
structure CanonClaim where
  base : PyClaim
  duplicates : List PyClaim
deriving DecidableEq, Repr

/-- State of the fold over `enumerate(subtopic_data["claims"])`:
emitted canonicals, the subtopic speaker set, and `accounted_for_ids`. -/
structure FoldState where
  deduped : List CanonClaim := []
  speakers : List String := []
  accounted : List Int := []
deriving DecidableEq, Repr

/-- The inner loop over `claim_set[claim_id]` (main.py:1122-1139): each
unvisited duplicate id is marked visited, and the claim found by
searching the bucket for `claim_item.get("claimId") == dupe_id` — a
field Stage 2 never writes — is copied with `duplicated = True` into the
duplicates list when such a claim exists. -/
def collectDupes (claims : List PyClaim) (dupe_ids : List Int)
    (accounted : List Int) : List PyClaim × List Int :=
  dupe_ids.foldl
    (fun st dupe_id =>
      if st.2.contains dupe_id then st
      else
        match claims.find? (fun c => c.claimId = some dupe_id) with
        | some dc => (st.1 ++ [{ dc with duplicated := some true }], st.2 ++ [dupe_id])
        | none => (st.1, st.2 ++ [dupe_id]))
    ([], accounted)

/-- One step of the dedup fold (main.py:1106-1143). -/
def foldDupStep (claims : List PyClaim) (claim_set : List (Int × List Int))
    (st : FoldState) (p : Nat × PyClaim) : FoldState :=
  let claim_id : Int := p.1
  let speaker := p.2.speaker.getD "unknown"
  let speakers := setAdd st.speakers speaker
  if st.accounted.contains claim_id then
    { st with speakers := speakers }
  else
    match alistGet claim_id claim_set with
    | some dupe_ids =>
      let r := collectDupes claims dupe_ids st.accounted
      { deduped := st.deduped ++ [⟨p.2, r.1⟩], speakers := speakers,
        accounted := r.2 ++ [claim_id] }
    | none =>
      { deduped := st.deduped ++ [⟨p.2, []⟩], speakers := speakers,
        accounted := st.accounted ++ [claim_id] }

/-- The dedup fold over the bucket's claims in their original order. -/
def foldDuplicates (claims : List PyClaim) (claim_set : List (Int × List Int)) : FoldState :=
  claims.enum.foldl (foldDupStep claims claim_set) {}

/-- `sorted(deduped_claims, key=lambda x: len(x["duplicates"]),
reverse=True)` — the stable descending relation (ties keep insertion
order, as in Python's stable sort). -/
def dupGe (a b : CanonClaim) : Prop := b.duplicates.length ≤ a.duplicates.length

instance : DecidableRel dupGe := fun a b => Nat.decLe b.duplicates.length a.duplicates.length

/-- Process one subtopic bucket with `total > 1` (main.py:1056-1148):
read `nesting` out of the extracted dedup response, close it into
`claim_set`, fold duplicates, sort canonicals by duplicate count.
Returns the sorted canonicals and the subtopic speaker set; nesting-key
parse errors propagate uncaught. -/
def processSubtopic (claims : List PyClaim) (deduped : Json) :
    Except PyErr (List CanonClaim × List String) := do
  let claim_set ←
    match deduped with
    | .obj fs =>
      (match alistGet "nesting" fs with
       | some (.obj entries) => buildClaimSet entries
       | some _ => .error .attributeError
       | none => pure [])
    | _ => .error .typeError
  let st := foldDuplicates claims claim_set
  pure (st.deduped.insertionSort dupGe, st.speakers)

/-- A subtopic bucket of the Stage 3 input tree. -/
structure SubtopicData where
  total : Int := 0
  claims : List PyClaim := []
deriving DecidableEq, Repr

/-- A topic of the Stage 3 input tree (`topic_data["subtopics"]`). -/
structure TopicData where
  subtopics : List (String × SubtopicData) := []
deriving DecidableEq, Repr

/-- The claims list of an output subtopic record: buckets with
`total > 1` hold canonicals carrying a `duplicates` key, the pass-through
branch returns the original claim dicts untouched. -/
inductive SubClaims where
  | deduped (cs : List CanonClaim)
  | raw (cs : List PyClaim)
deriving DecidableEq, Repr

/-- An output subtopic record `\x7bclaims, speakers, counts\x7d`
(main.py:1174-1183). -/
structure SubtopicRecord where
  claims : SubClaims
  speakers : List String
  countsClaims : Int
  countsSpeakers : Nat
deriving DecidableEq, Repr

/-- An output topic record `\x7btopics, speakers, counts\x7d`
(main.py:1206-1212). -/
structure TopicRecord where
  topics : List (String × SubtopicRecord)
  speakers : List String
  countsClaims : Int
  countsSpeakers : Nat
deriving DecidableEq, Repr

/-- `sorted(..., reverse=True)` keyed on `counts["speakers"]` or
`counts["claims"]` over subtopic entries; any other `sort` leaves
`sorted_subtopics` unassigned, so its later use raises
`UnboundLocalError` (main.py:1193-1209). -/
def sortSubtopics (sort : String) (l : List (String × SubtopicRecord)) :
    Except PyErr (List (String × SubtopicRecord)) :=
  if sort = "numPeople" then
    .ok (l.insertionSort (fun a b => b.2.countsSpeakers ≤ a.2.countsSpeakers))
  else if sort = "numClaims" then
    .ok (l.insertionSort (fun a b => b.2.countsClaims ≤ a.2.countsClaims))
  else
    .error .unboundLocalError

/-- The topic-level analogue (main.py:1215-1222, use at main.py:1241ff). -/
def sortTopics (sort : String) (l : List (String × TopicRecord)) :
    Except PyErr (List (String × TopicRecord)) :=
  if sort = "numPeople" then
    .ok (l.insertionSort (fun a b => b.2.countsSpeakers ≤ a.2.countsSpeakers))
  else if sort = "numClaims" then
    .ok (l.insertionSort (fun a b => b.2.countsClaims ≤ a.2.countsClaims))
  else
    .error .unboundLocalError

/-- One subtopic iteration of `sort_claims_tree` (main.py:1051-1183):
accumulate the topic total, dedup buckets with more than one claim
(`dedupResp` supplies the extracted LLM response for the bucket), pass
others through, and record `\x7bclaims, speakers, counts\x7d`. -/
def subtopicStep (dedupResp : String → String → Json) (topicName : String)
    (st : Int × List (String × SubtopicRecord)) (sp : String × SubtopicData) :
    Except PyErr (Int × List (String × SubtopicRecord)) := do
  let subtopic_data := sp.2
  let total' := st.1 + subtopic_data.total
  if subtopic_data.total > 1 then do
    let r ← processSubtopic subtopic_data.claims (dedupResp topicName sp.1)
    pure (total', st.2 ++
      [(sp.1, ⟨.deduped r.1, r.2, subtopic_data.total, r.2.length⟩)])
  else
    let speakers :=
      match subtopic_data.claims with
      | c :: _ => setAdd [] (c.speaker.getD "unknown")
      | [] => []
    pure (total', st.2 ++
      [(sp.1, ⟨.raw subtopic_data.claims, speakers, subtopic_data.total, speakers.length⟩)])

/-- `sort_claims_tree` (main.py:1032-1281, LLM transport and telemetry
outside the model): process every subtopic of every topic, sort the
subtopics inside each topic and then the topics, by the requested key.
An unhandled Python exception anywhere — nesting-key parse failure,
or the unassigned `sorted_subtopics`/`full_sort_tree` on an unknown
`sort` — aborts the whole request. -/
def sortClaimsTree (tree : List (String × TopicData))
    (dedupResp : String → String → Json) (sort : String) :
    Except PyErr (List (String × TopicRecord)) := do
  let sorted_tree ← tree.foldlM
    (fun acc tp => do
      let r ← tp.2.subtopics.foldlM (subtopicStep dedupResp tp.1) (0, [])
      let set_topic_speakers := r.2.foldl (fun s kv => setUnion s kv.2.speakers) []
      let sorted_subtopics ← sortSubtopics sort r.2
      pure (acc ++
        [(tp.1, (⟨sorted_subtopics, set_topic_speakers, r.1,
                  set_topic_speakers.length⟩ : TopicRecord))]))
    []
  sortTopics sort sorted_tree

/-! ### Stage 4 — crux analysis (`cruxes_from_tree`, main.py:1283-1623)

The per-speaker opinion scores 0, 0.5, 1 and their sums are modelled in
`ℚ`; Python's floats represent halves exactly, so the arithmetic agrees.
The controversy matrix (an N×N list of lists in Python, with all updates
in bounds) is modelled as a total function `ℕ → ℕ → ℚ` that is zero
outside the square. -/

/-- `cm[a][b] += q`. -/
def matAdd (m : ℕ → ℕ → ℚ) (a b : ℕ) (q : ℚ) : ℕ → ℕ → ℚ :=
  fun i j => if i = a ∧ j = b then m i j + q else m i j

/-- A row of `cont_mat` as built at main.py:1537-1539: the crux text in
column 0 (`row[0]`), then one score per speaker (`row[1:]`). -/
abbrev CruxScoreRow := String × List ℚ

/-- `controversy_matrix` (main.py:1283-1314): for every pair of crux
rows and every speaker column, add nothing when the scores agree, `0.5`
to both mirror cells when exactly one opinion is unknown (score 0), and
`1` when the known opinions differ. -/
def controversy_matrix (cont_mat : List CruxScoreRow) : ℕ → ℕ → ℚ :=
  cont_mat.enum.foldl
    (fun cm p =>
      let claim_index := p.1
      p.2.2.enum.foldl
        (fun cm q =>
          let score_index := q.1
          let score := q.2
          let other_scores :=
            (cont_mat.drop (claim_index + 1)).map (fun item => item.2.getD score_index 0)
          other_scores.enum.foldl
            (fun cm r =>
              let other_index := r.1
              let other_score := r.2
              if score ≠ other_score then
                if score = 0 ∨ other_score = 0 then
                  matAdd (matAdd cm claim_index (claim_index + other_index + 1) (1/2))
                    (claim_index + other_index + 1) claim_index (1/2)
                else
                  matAdd (matAdd cm claim_index (claim_index + other_index + 1) 1)
                    (claim_index + other_index + 1) claim_index 1
              else cm)
            cm)
        cm)
    (fun _ _ => 0)

/-- The speaker-column score of crux row `x`: `cont_mat[x][s+1]`. -/
def scoreAt (cont_mat : List CruxScoreRow) (x s : ℕ) : ℚ :=
  ((cont_mat.getD x ("", [])).2).getD s 0

/-- The per-speaker controversy contribution of one pair of scores. -/
def pairScore (a b : ℚ) : ℚ :=
  if a = b then 0 else if a = 0 ∨ b = 0 then 1/2 else 1

/-- `min(math.ceil(math.sqrt(n)), 10)`'s square-root part: `⌈√n⌉` over
the naturals (`ceilSqrt_le_iff` below characterizes it as the least `k`
with `n ≤ k²`, which is exactly the ceiling of the real square root). -/
def ceilSqrt (n : ℕ) : ℕ :=
  if n = 0 then 0 else Nat.sqrt (n - 1) + 1

/-- An entry of `topCruxes`. -/
structure TopCrux where
  score : ℚ
  cruxA : String
  cruxB : String
deriving DecidableEq, Repr

/-- The descending-score relation of `sorted(scores, key=lambda x: x[0],
reverse=True)` (stable: ties keep insertion order). -/
def scoreGe (a b : ℚ × ℕ × ℕ) : Prop := b.1 ≤ a.1

instance : DecidableRel scoreGe := fun a b =>
  inferInstanceAs (Decidable (b.1 ≤ a.1))

/-- `top_k_cruxes` (main.py:1391-1410): `K` is the caller's `top_k`, or
`min(⌈√(len(cruxes))⌉, 10)` when it is 0; collect the strict upper
triangle of the matrix as `(score, x, y)`, sort by score descending,
take `K`, and name the crux pair. -/
def top_k_cruxes (cont_mat : List (List ℚ)) (cruxes : List String) (top_k : ℕ) :
    List TopCrux :=
  let K := if top_k = 0 then min (ceilSqrt cruxes.length) 10 else top_k
  let scores := (List.range cont_mat.length).flatMap
    (fun x => (List.range' (x + 1) (cont_mat.length - (x + 1))).map
      (fun y => ((cont_mat.getD x []).getD y 0, x, y)))
  let all_scored_cruxes := scores.insertionSort scoreGe
  (all_scored_cruxes.take K).map
    (fun t => ⟨t.1, cruxes.getD t.2.1 "", cruxes.getD t.2.2 ""⟩)

/-- A crux object as extracted from the LLM response (after the
shape-dispatch of main.py:1461-1470): `cruxClaim`, `agree`, `disagree`,
and `explanation` when present (a missing one becomes `"N/A"`,
main.py:1484-1487). -/
structure LlmCrux where
  cruxClaim : String := ""
  agree : List String := []
  disagree : List String := []
  explanation : Option String := none
deriving DecidableEq, Repr

/-- A row of the returned `cruxClaims` (main.py:1612-1615). -/
structure CruxRow where
  cruxClaim : String
  agree : List String
  disagree : List String
  explanation : String
deriving DecidableEq, Repr

/-- `\x7bv: k for k, v in speaker_map.items()\x7d` (main.py:1477). -/
def invertMap (m : List (String × String)) : List (String × String) :=
  m.foldl (fun acc kv => alistSet kv.2 kv.1 acc) []

/-- A Python list comprehension whose body can raise: first failure
aborts, elements in order. -/
def tryMapM {α β : Type} (f : α → Except PyErr β) : List α → Except PyErr (List β)
  | [] => .ok []
  | a :: rest =>
    match f a with
    | .error e => .error e
    | .ok b =>
      match tryMapM f rest with
      | .error e => .error e
      | .ok bs => .ok (b :: bs)

/-- `a + ":" + ids_to_speakers[a]` (main.py:1493-1494); a missing id is
an uncaught `KeyError`. -/
def nameFromId (ids_to_speakers : List (String × String)) (a : String) :
    Except PyErr String :=
  match alistGet a ids_to_speakers with
  | some nm => .ok (a ++ ":" ++ nm)
  | none => .error .keyError

/-- The agree/disagree post-processing of one crux (main.py:1481-1495
and 1612-1615): keep the part of each entry before the first `:`, then
re-attach the de-anonymized speaker name, giving the `"<id>:<name>"`
strings returned in `cruxClaims`. -/
def processCrux (ids_to_speakers : List (String × String)) (crux : LlmCrux) :
    Except PyErr CruxRow :=
  let explanation := crux.explanation.getD "N/A"
  let agree := crux.agree.map beforeColon
  let disagree := crux.disagree.map beforeColon
  match tryMapM (nameFromId ids_to_speakers) agree with
  | .error e => .error e
  | .ok named_agree =>
    match tryMapM (nameFromId ids_to_speakers) disagree with
    | .error e => .error e
    | .ok named_disagree =>
      .ok ⟨crux.cruxClaim, named_agree, named_disagree, explanation⟩

/-- All crux rows of the response, in generation order. -/
def processCruxRows (speaker_map : List (String × String)) (cruxes : List LlmCrux) :
    Except PyErr (List CruxRow) :=
  tryMapM (processCrux (invertMap speaker_map)) cruxes

/-! ### Concrete inputs used by the claim theorems -/

/-- `Σ (1 + len(claims[i].duplicates))` over a list of canonical claims:
the left side of the count-conservation invariant. -/
def canonCount (cs : List CanonClaim) : Nat :=
  (cs.map (fun c => 1 + c.duplicates.length)).sum

/-- `\x7b"claims": A\x7d` as a JSON value. -/
def claimsObj (A : List Json) : Json := .obj [("claims", .arr A)]

/-- An array of integer claims. -/
def intsArr (A : List Int) : List Json := A.map Json.num

/-- The concatenation `toJSON(\x7b"claims": A\x7d) + " " +
toJSON(\x7b"claims": B\x7d)` fed to the extractor. -/
def concatClaims (A B : List Json) : String :=
  dumpsStr (claimsObj A) ++ " " ++ dumpsStr (claimsObj B)

/-- First claim of the `Cats` bucket of the `sort_claims_tree` docstring
example (main.py:838-845): no `claimId` field, as Stage 2 produces. -/
def catsClaim0 : PyClaim :=
  { claim := "Cats are the best pets.", quote := "I love cats.", speaker := some "Alice" }

/-- Second claim of the `Cats` bucket (main.py:846-852): identical text,
different quote, same speaker. -/
def catsClaim1 : PyClaim :=
  { claim := "Cats are the best pets.", quote := "I really really love cats",
    speaker := some "Alice" }

/-- The `Cats` subtopic bucket: two claims, `total = 2`. -/
def catsBucket : SubtopicData := ⟨2, [catsClaim0, catsClaim1]⟩

/-- The dedup response `\x7b"nesting": \x7b"claimId0": [],
"claimId1": ["claimId0"]\x7d\x7d` of the duplicate-folding scenario. -/
def catsNesting : Json :=
  .obj [("nesting", .obj [("claimId0", .arr []), ("claimId1", .arr [.str "claimId0"])])]

/-- A dedup response whose `nesting` has the malformed key `"claim0"`
with a non-empty value list. -/
def badKeyNesting : Json :=
  .obj [("nesting", .obj [("claim0", .arr [.str "claimId1"])])]

/-- A minimal Stage 3 input tree: one topic, one subtopic, one claim. -/
def tinyTree : List (String × TopicData) :=
  [("Pets", ⟨[("Dogs", ⟨1, [{ claim := "Dogs are superior pets.",
                              speaker := some "Bob" }]⟩)]⟩)]

/-- A Stage 3 tree holding the `Cats` bucket, for the tree-level run of
the malformed-nesting-key scenario. -/
def catsTree : List (String × TopicData) :=
  [("Pets", ⟨[("Cats", catsBucket)]⟩)]

/-- The dedup responder returning `badKeyNesting` for every bucket. -/
def badKeyResp : String → String → Json := fun _ _ => badKeyNesting

/-- The trivial dedup responder (`\x7b"nesting": \x7b\x7d\x7d`). -/
def emptyNestingResp : String → String → Json := fun _ _ => .obj [("nesting", .obj [])]

/-- A Stage 1 response whose only topic carries `subtopics: []`. -/
def emptySubtopicsTree : Json :=
  .obj [("taxonomy", .arr [.obj [("topicName", .str "Pets"), ("subtopics", .arr [])]])]

/-- A taxonomy with one topic `T` that has exactly one subtopic `S`. -/
def taxTS : List TaxTopic := [⟨"T", some [⟨"S"⟩]⟩]

/-- The speaker map `\x7b"Alice": "0", "Bob": "1"\x7d`. -/
def spkMapEx : List (String × String) := [("Alice", "0"), ("Bob", "1")]

/-- An LLM crux answer listing speaker 0 in `agree` and both speakers in
`disagree`, with no `explanation` key. -/
def cruxEx : LlmCrux :=
  { cruxClaim := "Cats rule", agree := ["0:I love cats"],
    disagree := ["0:dogs drool", "1:birds are fine"] }

/-- The row the pipeline returns for `cruxEx` under `spkMapEx`. -/
def cruxRowEx : CruxRow :=
  ⟨"Cats rule", ["0:Alice"], ["0:Alice", "1:Bob"], "N/A"⟩

/-- A topic dict with no `subtopics` key at all. -/
def topicNoSubs : Json := .obj [("topicName", .str "Pets")]

/-- A Stage 1 response whose only topic lacks the `subtopics` key. -/
def noSubtopicsTree : Json := .obj [("taxonomy", .arr [topicNoSubs])]

/-- The taxonomy subtopic `S`. -/
def taxSubS : TaxSubtopic := ⟨"S"⟩

/-- The taxonomy topic `T` with the single subtopic `S`. -/
def taxTopicT : TaxTopic := ⟨"T", some [taxSubS]⟩

/-! ## Supporting lemmas -/

theorem alistGet_set_self {K V : Type} [DecidableEq K] (k : K) (v : V) (d : List (K × V)) :
    alistGet k (alistSet k v d) = some v := by
  induction d with
  | nil => simp [alistSet, alistGet]
  | cons kv rest ih =>
    by_cases h : k = kv.1
    · simp [alistSet, alistGet, h]
    · simpa [alistSet, alistGet, h] using ih

theorem alistGet_set_ne {K V : Type} [DecidableEq K] {k k' : K} (v : V) (d : List (K × V))
    (h : k ≠ k') : alistGet k (alistSet k' v d) = alistGet k d := by
  induction d with
  | nil => simp [alistSet, alistGet, h]
  | cons kv rest ih =>
    by_cases h2 : k' = kv.1
    · have h3 : k ≠ kv.1 := h2 ▸ h
      simp [alistSet, alistGet, h2, h3]
    · by_cases h3 : k = kv.1 <;> simp [alistSet, alistGet, h2, h3, ih]

theorem alistMem_set_self {K V : Type} [DecidableEq K] (k : K) (v : V) (d : List (K × V)) :
    alistMem k (alistSet k v d) = true := by
  simp [alistMem, alistGet_set_self]

theorem alistMem_set {K V : Type} [DecidableEq K] (k k' : K) (v : V) (d : List (K × V)) :
    alistMem k (alistSet k' v d) = true → alistMem k d = true ∨ k = k' := by
  by_cases h : k = k'
  · exact fun _ => Or.inr h
  · rw [alistMem, alistGet_set_ne v d h]
    exact fun hm => Or.inl hm

theorem alistMem_set_mono {K V : Type} [DecidableEq K] {k : K} (k' : K) (v : V)
    (d : List (K × V)) (h : alistMem k d = true) : alistMem k (alistSet k' v d) = true := by
  by_cases he : k = k'
  · subst he; exact alistMem_set_self k v d
  · rwa [alistMem, alistGet_set_ne v d he]

/-! ### C3: Stage 1 normalization -/

theorem taxonomyList_normalize (tree : Json) :
    taxonomyList (normalizeTaxonomyTree tree) = (taxonomyList tree).map normTopic := by
  cases tree with
  | obj fs =>
    rcases hv : alistGet "taxonomy" fs with _ | v
    · simp [normalizeTaxonomyTree, taxonomyList, alistMem, hv, alistGet_set_self]
    · cases v <;>
        simp [normalizeTaxonomyTree, taxonomyList, alistMem, hv, alistGet_set_self]
  | null => rfl
  | bool b => rfl
  | num n => rfl
  | str s => rfl
  | arr xs => rfl

theorem normTopic_synthesizes (t : Json) (hdict : isJsonDict t = true)
    (hnolist : hasListSubtopics t = false) : subtopicCount (normTopic t) = 1 := by
  cases t with
  | obj fields =>
    rcases hv : alistGet "subtopics" fields with _ | v
    · simp [normTopic, subtopicCount, hv, alistGet_set_self]
    · cases v <;> simp_all [normTopic, subtopicCount, hasListSubtopics, hv, alistGet_set_self]
  | null => simp [isJsonDict] at hdict
  | bool b => simp [isJsonDict] at hdict
  | num n => simp [isJsonDict] at hdict
  | str s => simp [isJsonDict] at hdict
  | arr xs => simp [isJsonDict] at hdict

theorem normTopic_keeps_list (t : Json) (hlist : hasListSubtopics t = true) :
    normTopic t = t := by
  cases t with
  | obj fields =>
    rcases hv : alistGet "subtopics" fields with _ | v
    · simp [hasListSubtopics, hv] at hlist
    · cases v <;> simp_all [normTopic, hasListSubtopics, hv]
  | null => simp [hasListSubtopics] at hlist
  | bool b => simp [hasListSubtopics] at hlist
  | num n => simp [hasListSubtopics] at hlist
  | str s => simp [hasListSubtopics] at hlist
  | arr xs => simp [hasListSubtopics] at hlist

/-! ### C4: coverage pass -/

theorem subMem_coverSubStep_mono (tn : String) (sub : TaxSubtopic) (nc : NodeCounts)
    {t s : String} (h : subMem nc t s = true) :
    subMem (coverSubStep tn nc sub) t s = true := by
  rcases hg : alistGet tn nc with _ | node
  · by_cases he : t = tn
    · subst he; simp [subMem, hg] at h
    · simpa [coverSubStep, hg, subMem, alistGet_set_ne _ _ he] using h
  · by_cases hmem : alistMem sub.subtopicName node.subtopics = true
    · simpa [coverSubStep, hg, hmem] using h
    · by_cases he : t = tn
      · subst he
        rw [subMem, hg] at h
        simp only [coverSubStep, hg, hmem, if_false]
        simp [subMem, alistGet_set_self, alistMem_set_mono _ _ _ h]
      · simp only [coverSubStep, hg, hmem, if_false]
        simpa [subMem, alistGet_set_ne _ _ he] using h

theorem mem_coverSubStep_mono (tn : String) (sub : TaxSubtopic) (nc : NodeCounts)
    {t : String} (h : alistMem t nc = true) :
    alistMem t (coverSubStep tn nc sub) = true := by
  rcases hg : alistGet tn nc with _ | node
  · simp [coverSubStep, hg, alistMem_set_mono _ _ _ h]
  · by_cases hmem : alistMem sub.subtopicName node.subtopics = true <;>
      simp [coverSubStep, hg, hmem, alistMem_set_mono _ _ _ h, h]

theorem mem_coverSubStep_new (tn : String) (sub : TaxSubtopic) (nc : NodeCounts)
    {t : String} (h : alistMem t (coverSubStep tn nc sub) = true) :
    alistMem t nc = true ∨ t = tn := by
  rcases hg : alistGet tn nc with _ | node
  · simp only [coverSubStep, hg] at h
    exact alistMem_set _ _ _ _ h
  · simp only [coverSubStep, hg] at h
    by_cases hmem : alistMem sub.subtopicName node.subtopics = true
    · rw [if_pos hmem] at h
      exact Or.inl h
    · rw [if_neg hmem] at h
      exact alistMem_set _ _ _ _ h

theorem subMem_coverFold_mono (tn : String) (subs : List TaxSubtopic) :
    ∀ (nc : NodeCounts) {t s : String}, subMem nc t s = true →
      subMem (subs.foldl (coverSubStep tn) nc) t s = true := by
  induction subs with
  | nil => intro nc t s h; simpa using h
  | cons sub rest ih =>
    intro nc t s h
    exact ih _ (subMem_coverSubStep_mono tn sub nc h)

theorem mem_coverFold_mono (tn : String) (subs : List TaxSubtopic) :
    ∀ (nc : NodeCounts) {t : String}, alistMem t nc = true →
      alistMem t (subs.foldl (coverSubStep tn) nc) = true := by
  induction subs with
  | nil => intro nc t h; simpa using h
  | cons sub rest ih =>
    intro nc t h
    exact ih _ (mem_coverSubStep_mono tn sub nc h)

theorem mem_coverFold_new (tn : String) (subs : List TaxSubtopic) :
    ∀ (nc : NodeCounts) {t : String},
      alistMem t (subs.foldl (coverSubStep tn) nc) = true →
      alistMem t nc = true ∨ t = tn := by
  induction subs with
  | nil => intro nc t h; exact Or.inl (by simpa using h)
  | cons sub rest ih =>
    intro nc t h
    rcases ih _ h with h2 | h2
    · exact mem_coverSubStep_new tn sub nc h2
    · exact Or.inr h2

theorem subMem_coverTopicStep_mono (topic : TaxTopic) (nc : NodeCounts)
    {t s : String} (h : subMem nc t s = true) :
    subMem (coverTopicStep nc topic) t s = true := by
  rcases hsub : topic.subtopics with _ | subs
  · simpa [coverTopicStep, hsub] using h
  · rw [coverTopicStep, hsub]
    exact subMem_coverFold_mono _ _ _ h

theorem mem_coverTopicStep_mono (topic : TaxTopic) (nc : NodeCounts)
    {t : String} (h : alistMem t nc = true) :
    alistMem t (coverTopicStep nc topic) = true := by
  rcases hsub : topic.subtopics with _ | subs
  · simpa [coverTopicStep, hsub] using h
  · rw [coverTopicStep, hsub]
    exact mem_coverFold_mono _ _ _ h

theorem not_mem_coverTopicStep (topic : TaxTopic) (nc : NodeCounts) {t : String}
    (h : alistMem t nc = false) (hne : t ≠ topic.topicName) :
    alistMem t (coverTopicStep nc topic) = false := by
  rcases hsub : topic.subtopics with _ | subs
  · simpa [coverTopicStep, hsub] using h
  · rw [coverTopicStep, hsub]
    by_contra hcon
    simp only [Bool.not_eq_false] at hcon
    rcases mem_coverFold_new _ _ _ hcon with h2 | h2
    · rw [h] at h2; cases h2
    · exact hne h2

theorem subMem_ensure_mono (taxonomy : List TaxTopic) :
    ∀ (nc : NodeCounts) {t s : String}, subMem nc t s = true →
      subMem (ensureCoverage taxonomy nc) t s = true := by
  induction taxonomy with
  | nil => intro nc t s h; simpa [ensureCoverage] using h
  | cons topic rest ih =>
    intro nc t s h
    exact ih _ (subMem_coverTopicStep_mono topic nc h)

theorem mem_ensure_mono (taxonomy : List TaxTopic) :
    ∀ (nc : NodeCounts) {t : String}, alistMem t nc = true →
      alistMem t (ensureCoverage taxonomy nc) = true := by
  induction taxonomy with
  | nil => intro nc t h; simpa [ensureCoverage] using h
  | cons topic rest ih =>
    intro nc t h
    exact ih _ (mem_coverTopicStep_mono topic nc h)

theorem coverFold_present (tn : String) (subs : List TaxSubtopic) :
    ∀ (nc : NodeCounts), alistMem tn nc = true →
      ∀ sub ∈ subs, subMem (subs.foldl (coverSubStep tn) nc) tn sub.subtopicName = true := by
  induction subs with
  | nil => intro nc _ sub hmem; cases hmem
  | cons s0 rest ih =>
    intro nc hnc sub hmem
    have hstep : subMem (coverSubStep tn nc s0) tn s0.subtopicName = true := by
      rw [alistMem] at hnc
      rcases hg : alistGet tn nc with _ | node
      · rw [hg] at hnc; cases hnc
      · by_cases hs : alistMem s0.subtopicName node.subtopics = true
        · simp [coverSubStep, hg, hs, subMem]
        · simp [coverSubStep, hg, hs, subMem, alistGet_set_self, alistMem_set_self]
    rcases List.mem_cons.mp hmem with he | hr
    · subst he
      exact subMem_coverFold_mono tn rest _ hstep
    · exact ih _ (mem_coverSubStep_mono tn s0 nc hnc) sub hr

theorem coverFold_mem_of_ne_nil (tn : String) (s0 : TaxSubtopic) (rest : List TaxSubtopic)
    (nc : NodeCounts) :
    alistMem tn ((s0 :: rest).foldl (coverSubStep tn) nc) = true := by
  have hstep : alistMem tn (coverSubStep tn nc s0) = true := by
    rcases hg : alistGet tn nc with _ | node
    · simp [coverSubStep, hg, alistMem_set_self]
    · simp only [coverSubStep, hg]
      by_cases hs : alistMem s0.subtopicName node.subtopics = true
      · rw [if_pos hs]
        simp [alistMem, hg]
      · rw [if_neg hs]
        exact alistMem_set_self _ _ _
  exact mem_coverFold_mono tn rest _ hstep

theorem coverFold_absent (tn : String) (s0 : TaxSubtopic) (rest : List TaxSubtopic)
    (nc : NodeCounts) (h : alistMem tn nc = false) :
    subMem ((s0 :: rest).foldl (coverSubStep tn) nc) tn "None" = true ∧
    ∀ sub ∈ rest, subMem ((s0 :: rest).foldl (coverSubStep tn) nc) tn sub.subtopicName = true := by
  have hget : alistGet tn nc = none := by
    rw [alistMem] at h
    rcases hg : alistGet tn nc with _ | node
    · rfl
    · rw [hg] at h; cases h
  have hstep : coverSubStep tn nc s0 =
      alistSet tn { total := 0, speakers := [], subtopics := [("None", emptyS2Sub)] } nc := by
    rw [coverSubStep, hget]
  constructor
  · rw [List.foldl_cons]
    apply subMem_coverFold_mono
    rw [hstep]
    simp [subMem, alistGet_set_self, alistMem, alistGet]
  · intro sub hmem
    rw [List.foldl_cons]
    apply coverFold_present tn rest _ _ sub hmem
    rw [hstep]
    exact alistMem_set_self _ _ _

/-! ### C7: mapM inversion -/

theorem tryMapM_mem {α β : Type} (f : α → Except PyErr β) :
    ∀ (l : List α) (ys : List β), tryMapM f l = .ok ys → ∀ y ∈ ys, ∃ x ∈ l, f x = .ok y := by
  intro l
  induction l with
  | nil =>
    intro ys h y hy
    rw [tryMapM] at h
    injection h with h'
    subst h'
    cases hy
  | cons a rest ih =>
    intro ys h y hy
    cases hfa : f a with
    | error e => rw [tryMapM, hfa] at h; cases h
    | ok b =>
      cases hrest : tryMapM f rest with
      | error e => rw [tryMapM, hfa, hrest] at h; cases h
      | ok bs =>
        rw [tryMapM, hfa, hrest] at h
        injection h with h'
        subst h'
        rcases List.mem_cons.mp hy with he | hm
        · exact ⟨a, List.mem_cons_self a rest, he ▸ hfa⟩
        · obtain ⟨x, hx, hfx⟩ := ih bs hrest y hm
          exact ⟨x, List.mem_cons_of_mem _ hx, hfx⟩

/-! ### C6: controversy matrix

The triple loop of `controversy_matrix` only ever adds quantities to
cells, so the resulting matrix is the pointwise sum of per-event deltas;
`foldl_add_apply` captures that once, and the three loop levels are
collapsed with it. -/

/-- `q` at cell `(a, b)`, `0` elsewhere. -/
def cellInd (a b i j : ℕ) (q : ℚ) : ℚ := if i = a ∧ j = b then q else 0

theorem matAdd_apply (m : ℕ → ℕ → ℚ) (a b : ℕ) (q : ℚ) (i j : ℕ) :
    matAdd m a b q i j = m i j + cellInd a b i j q := by
  unfold matAdd cellInd
  split <;> simp

/-- The two-cell delta contributed by one innermost iteration of
`controversy_matrix` with row index `ci`, speaker score `score` and
enumerated other-row score `r`. -/
def innerDelta (ci : ℕ) (score : ℚ) (r : ℕ × ℚ) (i j : ℕ) : ℚ :=
  if score ≠ r.2 then
    cellInd ci (ci + r.1 + 1) i j (if score = 0 ∨ r.2 = 0 then 1/2 else 1) +
    cellInd (ci + r.1 + 1) ci i j (if score = 0 ∨ r.2 = 0 then 1/2 else 1)
  else 0

theorem foldl_add_apply {α : Type} (g : (ℕ → ℕ → ℚ) → α → (ℕ → ℕ → ℚ))
    (d : α → ℕ → ℕ → ℚ) (hg : ∀ m a i j, g m a i j = m i j + d a i j) :
    ∀ (l : List α) (m : ℕ → ℕ → ℚ) (i j : ℕ),
      (l.foldl g m) i j = m i j + (l.map (fun a => d a i j)).sum := by
  intro l
  induction l with
  | nil => intro m i j; simp
  | cons a rest ih =>
    intro m i j
    rw [List.foldl_cons, ih, List.map_cons, List.sum_cons, hg]
    ring

theorem inner_step_apply (ci : ℕ) (score : ℚ) (cm : ℕ → ℕ → ℚ) (r : ℕ × ℚ) (i j : ℕ) :
    (if score ≠ r.2 then
      if score = 0 ∨ r.2 = 0 then
        matAdd (matAdd cm ci (ci + r.1 + 1) (1/2)) (ci + r.1 + 1) ci (1/2)
      else
        matAdd (matAdd cm ci (ci + r.1 + 1) 1) (ci + r.1 + 1) ci 1
     else cm) i j = cm i j + innerDelta ci score r i j := by
  unfold innerDelta
  by_cases hne : score ≠ r.2
  · by_cases hz : score = 0 ∨ r.2 = 0 <;>
      simp [hne, hz, matAdd_apply, add_assoc]
  · simp [hne]

/-- The matrix is the pointwise triple sum of the per-event deltas. -/
theorem controversy_matrix_eq_sum (cont_mat : List CruxScoreRow) (i j : ℕ) :
    controversy_matrix cont_mat i j =
      (cont_mat.enum.map (fun p =>
        (p.2.2.enum.map (fun q =>
          (((cont_mat.drop (p.1 + 1)).map (fun item => item.2.getD q.1 0)).enum.map
            (fun r => innerDelta p.1 q.2 r i j)).sum)).sum)).sum := by
  unfold controversy_matrix
  rw [foldl_add_apply _
    (fun p i j =>
      (p.2.2.enum.map (fun q =>
        (((cont_mat.drop (p.1 + 1)).map (fun item => item.2.getD q.1 0)).enum.map
          (fun r => innerDelta p.1 q.2 r i j)).sum)).sum)
    ?_ cont_mat.enum (fun _ _ => 0) i j]
  · rw [zero_add]
  · intro m p i' j'
    rw [foldl_add_apply _
      (fun q i j =>
        (((cont_mat.drop (p.1 + 1)).map (fun item => item.2.getD q.1 0)).enum.map
          (fun r => innerDelta p.1 q.2 r i j)).sum)
      ?_ p.2.2.enum m i' j']
    intro m2 q i2 j2
    rw [foldl_add_apply _ (fun r i j => innerDelta p.1 q.2 r i j) ?_ _ m2 i2 j2]
    intro m3 r i3 j3
    exact inner_step_apply p.1 q.2 m3 r i3 j3

theorem sum_enumFrom_single {α : Type} (dflt : α) (f : ℕ → α → ℚ) (i : ℕ) :
    ∀ (l : List α) (n : ℕ), (∀ k a, k ≠ i → f k a = 0) →
      ((List.enumFrom n l).map (fun p => f p.1 p.2)).sum =
        if n ≤ i ∧ i < n + l.length then f i (l.getD (i - n) dflt) else 0 := by
  intro l
  induction l with
  | nil =>
    intro n _
    rw [List.enumFrom_nil, List.map_nil, List.sum_nil,
      if_neg (by simp only [List.length_nil]; omega)]
  | cons a rest ih =>
    intro n hf
    rw [List.enumFrom_cons, List.map_cons, List.sum_cons, ih (n + 1) hf]
    by_cases he : n = i
    · subst he
      rw [if_neg (by omega), if_pos (by simp only [List.length_cons]; omega)]
      simp
    · rw [hf n a he, zero_add]
      by_cases hc : n + 1 ≤ i ∧ i < n + 1 + rest.length
      · rw [if_pos hc, if_pos (by simp only [List.length_cons]; omega)]
        have harith : i - n = (i - (n + 1)) + 1 := by omega
        rw [harith, List.getD_cons_succ]
      · rw [if_neg hc, if_neg (by simp only [List.length_cons]; omega)]

theorem sum_enum_single {α : Type} (dflt : α) (f : ℕ → α → ℚ) (i : ℕ) (l : List α)
    (hf : ∀ k a, k ≠ i → f k a = 0) :
    ((l.enum.map (fun p => f p.1 p.2)).sum) =
      if i < l.length then f i (l.getD i dflt) else 0 := by
  have h := sum_enumFrom_single dflt f i l 0 hf
  rw [List.enum] at *
  rw [h]
  by_cases hc : i < l.length
  · rw [if_pos (by omega), if_pos hc]
    simp
  · rw [if_neg (by omega), if_neg hc]

theorem sum_enumFrom_range {α : Type} (dflt : α) (f : ℕ → α → ℚ) :
    ∀ (l : List α) (n : ℕ),
      ((List.enumFrom n l).map (fun p => f p.1 p.2)).sum =
        ((List.range l.length).map (fun k => f (n + k) (l.getD k dflt))).sum := by
  intro l
  induction l with
  | nil => intro n; simp
  | cons a rest ih =>
    intro n
    rw [List.enumFrom_cons, List.map_cons, List.sum_cons, ih (n + 1),
      List.length_cons, List.range_succ_eq_map, List.map_cons, List.sum_cons]
    simp only [Nat.add_zero, List.map_map]
    have hmapeq :
        List.map (fun k => f (n + 1 + k) (rest.getD k dflt)) (List.range rest.length) =
        List.map ((fun k => f (n + k) ((a :: rest).getD k dflt)) ∘ Nat.succ)
          (List.range rest.length) := by
      apply List.map_congr_left
      intro k _
      simp only [Function.comp_apply, List.getD_cons_succ]
      congr 1
      omega
    rw [hmapeq]
    simp

theorem sum_enum_range {α : Type} (dflt : α) (f : ℕ → α → ℚ) (l : List α) :
    (l.enum.map (fun p => f p.1 p.2)).sum =
      ((List.range l.length).map (fun k => f k (l.getD k dflt))).sum := by
  have h := sum_enumFrom_range dflt f l 0
  rw [List.enum] at *
  simpa using h

theorem cellInd_symm (a b i j : ℕ) (q : ℚ) : cellInd a b i j q = cellInd b a j i q := by
  unfold cellInd
  by_cases h : i = a ∧ j = b
  · rw [if_pos h, if_pos ⟨h.2, h.1⟩]
  · rw [if_neg h, if_neg (fun h2 => h ⟨h2.2, h2.1⟩)]

theorem innerDelta_symm (ci : ℕ) (s : ℚ) (r : ℕ × ℚ) (i j : ℕ) :
    innerDelta ci s r j i = innerDelta ci s r i j := by
  unfold innerDelta
  split
  · rw [← cellInd_symm (ci + r.1 + 1) ci i j, ← cellInd_symm ci (ci + r.1 + 1) i j,
      add_comm]
  · rfl

theorem innerDelta_diag (ci : ℕ) (s : ℚ) (r : ℕ × ℚ) (i : ℕ) :
    innerDelta ci s r i i = 0 := by
  unfold innerDelta cellInd
  split
  · rw [if_neg (by rintro ⟨h1, h2⟩; omega), if_neg (by rintro ⟨h1, h2⟩; omega), add_zero]
  · rfl

theorem innerDelta_off_row (k : ℕ) (s : ℚ) (r : ℕ × ℚ) {i j : ℕ} (hij : i < j)
    (hk : k ≠ i) : innerDelta k s r i j = 0 := by
  unfold innerDelta cellInd
  split
  · rw [if_neg (fun h => hk h.1.symm), if_neg (by rintro ⟨h1, h2⟩; omega), add_zero]
  · rfl

theorem innerDelta_off_col (score os : ℚ) (oi : ℕ) {i j : ℕ} (hij : i < j)
    (hoi : oi ≠ j - i - 1) : innerDelta i score (oi, os) i j = 0 := by
  unfold innerDelta cellInd
  split
  · rw [if_neg (by rintro ⟨h1, h2⟩; omega), if_neg (by rintro ⟨h1, h2⟩; omega), add_zero]
  · rfl

theorem innerDelta_at {i j : ℕ} (hij : i < j) (score os : ℚ) :
    innerDelta i score (j - i - 1, os) i j = pairScore score os := by
  have hj : i + (j - i - 1) + 1 = j := by omega
  unfold innerDelta cellInd pairScore
  by_cases hne : score = os
  · simp [hne]
  · by_cases hz : score = 0 ∨ os = 0 <;>
      simp [hne, hz, hj, hij.ne, hij.ne']

/-! ### C9: top-K selection -/

instance : IsTotal (ℚ × ℕ × ℕ) scoreGe := ⟨fun a b => le_total b.1 a.1⟩

instance : IsTrans (ℚ × ℕ × ℕ) scoreGe := ⟨fun _ _ _ hab hbc => le_trans hbc hab⟩

/-- `ceilSqrt` is the least `k` with `n ≤ k²`: exactly
`math.ceil(math.sqrt(n))` under exact arithmetic. -/
theorem ceilSqrt_le_iff (n k : ℕ) : ceilSqrt n ≤ k ↔ n ≤ k * k := by
  unfold ceilSqrt
  by_cases h : n = 0
  · subst h; simp
  · rw [if_neg h]
    constructor
    · intro hle
      have h1 : n - 1 < (Nat.sqrt (n - 1) + 1) * (Nat.sqrt (n - 1) + 1) := by
        have := Nat.lt_succ_sqrt' (n - 1)
        rwa [pow_two, Nat.succ_eq_add_one] at this
      have h2 : (Nat.sqrt (n - 1) + 1) * (Nat.sqrt (n - 1) + 1) ≤ k * k :=
        Nat.mul_le_mul hle hle
      omega
    · intro hnk
      have h1 : Nat.sqrt (n - 1) < k := Nat.sqrt_lt.mpr (by omega)
      omega

/-! ## Claim theorems -/

/-- C1: the duplicate-folding claim. The spec's fold copies the claim at
relative index `m` into the canonical's duplicates; the code instead
looks the duplicate up by a `claimId` dict field that Stage 2 never
writes (main.py:1125-1137), so on the spec's own two-claim scenario —
nesting `\x7b"claimId0": [], "claimId1": ["claimId0"]\x7d` over the
docstring's `Cats` bucket — the single emitted canonical has an empty
`duplicates` list instead of one of length 1. -/
theorem claim1_dedup_lookup_code_bug :
    processSubtopic catsBucket.claims catsNesting =
      .ok ([⟨catsClaim0, []⟩], ["Alice"]) ∧
    (⟨catsClaim0, ([] : List PyClaim)⟩ : CanonClaim).duplicates.length = 0 ∧
    (processSubtopic [{ catsClaim0 with claimId := some 0 },
                      { catsClaim1 with claimId := some 1 }] catsNesting =
      .ok ([⟨{ catsClaim0 with claimId := some 0 },
             [{ catsClaim1 with claimId := some 1, duplicated := some true }]⟩],
           ["Alice"])) := by
  refine ⟨by decide, rfl, by decide⟩

/-- C2: count conservation. On the same scenario the sum of
`1 + len(duplicates)` over the emitted canonicals is 1, while the
bucket's pre-dedup total (the value reported in `counts.claims`) is 2:
the duplicate was marked visited but never re-attached, so the invariant
fails on the code. -/
theorem claim2_count_conservation_code_bug :
    processSubtopic catsBucket.claims catsNesting =
      .ok ([⟨catsClaim0, []⟩], ["Alice"]) ∧
    canonCount [⟨catsClaim0, []⟩] = 1 ∧
    catsBucket.total = 2 := by
  refine ⟨by decide, rfl, rfl⟩

/-- C3, counterexample: a topic arriving with `subtopics: []` passes the
`"subtopics" not in topic or not isinstance(..., list)` test at
main.py:297, so no subtopic is synthesized and the returned topic has
zero subtopics — the claim's guarantee `len(subtopics) ≥ 1` fails. -/
theorem claim3_counterexample :
    ¬ (∀ t ∈ taxonomyList (normalizeTaxonomyTree emptySubtopicsTree),
        1 ≤ subtopicCount t) := by
  decide

/-- C3, amended: Stage 1 normalization maps `normTopic` over the
taxonomy; a dict topic lacking a list-valued `subtopics` key gets
exactly the one synthesized `General` subtopic, while a topic that
already carries a list — including the empty list — is returned
unchanged, so `len(subtopics) ≥ 1` is only guaranteed for topics without
a list-valued `subtopics` field. -/
theorem claim3_amended (tree : Json) :
    taxonomyList (normalizeTaxonomyTree tree) = (taxonomyList tree).map normTopic ∧
    (∀ t : Json, isJsonDict t = true → hasListSubtopics t = false →
      subtopicCount (normTopic t) = 1) ∧
    (∀ t : Json, hasListSubtopics t = true → normTopic t = t) :=
  ⟨taxonomyList_normalize tree,
   fun t hd hl => normTopic_synthesizes t hd hl,
   fun t hl => normTopic_keeps_list t hl⟩

/-- C3, witness: the amended statement applied to a tree whose topic has
no `subtopics` key. -/
theorem claim3_amended_witness :
    taxonomyList (normalizeTaxonomyTree noSubtopicsTree) =
      (taxonomyList noSubtopicsTree).map normTopic ∧
    subtopicCount (normTopic topicNoSubs) = 1 :=
  ⟨(claim3_amended noSubtopicsTree).1,
   (claim3_amended noSubtopicsTree).2.1 topicNoSubs (by decide) (by decide)⟩

/-- C4, counterexample: with taxonomy `[T ↦ [S]]` and no claims placed,
the coverage pass creates topic `T` with only the `"None"` placeholder —
the `(T, S)` bucket the claim promises does not exist. -/
theorem claim4_counterexample :
    subMem (ensureCoverage taxTS []) "T" "S" = false ∧
    alistMem "T" (ensureCoverage taxTS []) = true ∧
    subMem (ensureCoverage taxTS []) "T" "None" = true := by
  decide

/-- C4, amended: for unique topic names, every taxonomy topic with a
non-empty `subtopics` list ends up as a ClaimTree key; under a topic
already present in the tree every input subtopic gets a bucket (possibly
empty); a fully-absent topic instead gets the `"None"` placeholder plus
empty buckets for its input subtopics from the second onward — its first
subtopic's bucket is not created. -/
theorem claim4_amended :
    ∀ (taxonomy : List TaxTopic) (nc : NodeCounts),
      (taxonomy.map TaxTopic.topicName).Nodup →
      ∀ topic ∈ taxonomy, ∀ subs, topic.subtopics = some subs →
        (subs ≠ [] → alistMem topic.topicName (ensureCoverage taxonomy nc) = true) ∧
        (alistMem topic.topicName nc = true →
          ∀ sub ∈ subs,
            subMem (ensureCoverage taxonomy nc) topic.topicName sub.subtopicName = true) ∧
        (alistMem topic.topicName nc = false → subs ≠ [] →
          subMem (ensureCoverage taxonomy nc) topic.topicName "None" = true ∧
          ∀ sub ∈ subs.tail,
            subMem (ensureCoverage taxonomy nc) topic.topicName sub.subtopicName = true) := by
  intro taxonomy
  induction taxonomy with
  | nil => intro nc _ topic hmem; cases hmem
  | cons t ts ih =>
    intro nc hnodup topic hmem subs hsubs
    rw [List.map_cons, List.nodup_cons] at hnodup
    obtain ⟨hnotin, hnd⟩ := hnodup
    have hunfold : ensureCoverage (t :: ts) nc = ensureCoverage ts (coverTopicStep nc t) := rfl
    rcases List.mem_cons.mp hmem with he | hr
    · subst he
      refine ⟨?_, ?_, ?_⟩
      · intro hne
        rcases hs : subs with _ | ⟨s0, rest⟩
        · exact absurd hs hne
        · rw [hunfold]
          apply mem_ensure_mono
          rw [coverTopicStep, hsubs, hs]
          exact coverFold_mem_of_ne_nil _ _ _ _
      · intro hpre sub hsub
        rw [hunfold]
        apply subMem_ensure_mono
        rw [coverTopicStep, hsubs]
        exact coverFold_present _ _ _ hpre sub hsub
      · intro hpre hne
        rcases hs : subs with _ | ⟨s0, rest⟩
        · exact absurd hs hne
        · subst hs
          rw [hunfold]
          have hlocal := coverFold_absent topic.topicName s0 rest nc hpre
          constructor
          · apply subMem_ensure_mono
            rw [coverTopicStep, hsubs]
            exact hlocal.1
          · intro sub hsub
            apply subMem_ensure_mono
            rw [coverTopicStep, hsubs]
            exact hlocal.2 sub hsub
    · have hne : topic.topicName ≠ t.topicName := by
        intro he
        exact hnotin (he ▸ List.mem_map_of_mem TaxTopic.topicName hr)
      have hrec := ih (coverTopicStep nc t) hnd topic hr subs hsubs
      refine ⟨?_, ?_, ?_⟩
      · intro hne'
        rw [hunfold]
        exact hrec.1 hne'
      · intro hpre sub hsub
        rw [hunfold]
        exact hrec.2.1 (mem_coverTopicStep_mono t nc hpre) sub hsub
      · intro hpre hne'
        rw [hunfold]
        exact hrec.2.2 (not_mem_coverTopicStep t nc hpre hne) hne'

/-- C4, witness: the amended statement applied to taxonomy `[T ↦ [S]]`
over the empty tree. -/
theorem claim4_amended_witness :
    (taxTS.map TaxTopic.topicName).Nodup ∧
    (subMem (ensureCoverage taxTS []) "T" "None" = true ∧
      ∀ sub ∈ ([taxSubS] : List TaxSubtopic).tail,
        subMem (ensureCoverage taxTS []) "T" sub.subtopicName = true) :=
  ⟨by decide,
   (claim4_amended taxTS [] (by decide) taxTopicT (by decide) [taxSubS] rfl).2.2
     (by decide) (by decide)⟩

/-- C5: an invalid sort key. The spec specifies an InputInvalid error
(HTTP 400); the code leaves `sorted_subtopics` unassigned and its use at
main.py:1209 raises an uncaught `UnboundLocalError` (an internal HTTP
500), as the evaluation of the embedded endpoint shows; the same tree
sorts fine under a valid key. -/
theorem claim5_invalid_sort_code_bug :
    sortClaimsTree tinyTree emptyNestingResp "alphabetical" =
      .error .unboundLocalError ∧
    (sortClaimsTree tinyTree emptyNestingResp "numPeople").isOk = true := by
  refine ⟨by decide, by decide⟩

/-- C10: the nesting-key parser is not total. A dedup response whose
extracted JSON nests the malformed key `"claim0"` under a non-empty
value list makes `int(claim_key.split("Id")[1])` raise an uncaught
`IndexError` (and `"myIdx"` a `ValueError`), failing the whole
`PUT /sort_claims_tree` request rather than normalizing the item. -/
theorem claim10_nesting_key_parser_not_total :
    processSubtopic catsBucket.claims badKeyNesting = .error .indexError ∧
    sortClaimsTree catsTree badKeyResp "numPeople" = .error .indexError ∧
    parseClaimKey "claim0" = .error .indexError ∧
    parseClaimKey "myIdx" = .error .valueError := by
  refine ⟨by decide, by decide, by decide, by decide⟩

/-- C7, counterexample: the returned `agree`/`disagree` entries are
`"<id>:<speakerName>"` strings (the name is re-attached at
main.py:1493-1494), not bare speaker ids, and nothing enforces
disjointness: with `agree = ["0:…"]` and `disagree = ["0:…", "1:…"]`
from the LLM, the returned row has `agree = ["0:Alice"]` and
`disagree = ["0:Alice", "1:Bob"]`. -/
theorem claim7_counterexample :
    processCruxRows spkMapEx [cruxEx] = .ok [cruxRowEx] ∧
    ¬ (∀ x ∈ cruxRowEx.agree, x ∈ spkMapEx.map Prod.snd) ∧
    ¬ (∀ x ∈ cruxRowEx.agree, ∀ y ∈ cruxRowEx.disagree, x ≠ y) := by
  refine ⟨by decide, by decide, by decide⟩

/-- C7, amended: every element of `agree` and `disagree` in every
returned CruxRow has the shape `"<id>:<speakerName>"`, where `<id>` is
the part of the corresponding LLM entry before its first `:` and
`<speakerName>` is that id's preimage under the speaker map; the two
lists need not be disjoint. -/
theorem claim7_amended (speaker_map : List (String × String)) (cruxes : List LlmCrux)
    (rows : List CruxRow) (h : processCruxRows speaker_map cruxes = .ok rows) :
    ∀ r ∈ rows, ∃ c ∈ cruxes,
      (∀ x ∈ r.agree, ∃ a ∈ c.agree, ∃ nm,
        alistGet (beforeColon a) (invertMap speaker_map) = some nm ∧
        x = beforeColon a ++ ":" ++ nm) ∧
      (∀ x ∈ r.disagree, ∃ a ∈ c.disagree, ∃ nm,
        alistGet (beforeColon a) (invertMap speaker_map) = some nm ∧
        x = beforeColon a ++ ":" ++ nm) := by
  intro r hr
  obtain ⟨c, hc, hpc⟩ := tryMapM_mem _ cruxes rows h r hr
  cases hna : tryMapM (nameFromId (invertMap speaker_map)) (c.agree.map beforeColon) with
  | error e => rw [processCrux, hna] at hpc; cases hpc
  | ok na =>
    cases hnd : tryMapM (nameFromId (invertMap speaker_map)) (c.disagree.map beforeColon) with
    | error e => rw [processCrux, hna, hnd] at hpc; cases hpc
    | ok nd =>
      rw [processCrux, hna, hnd] at hpc
      injection hpc with h'
      subst h'
      refine ⟨c, hc, ?_, ?_⟩
      · intro x hx
        obtain ⟨a', ha', hok⟩ := tryMapM_mem _ _ _ hna x hx
        obtain ⟨a, ha, hbc⟩ := List.mem_map.mp ha'
        subst hbc
        rcases hg : alistGet (beforeColon a) (invertMap speaker_map) with _ | nm
        · rw [nameFromId, hg] at hok; cases hok
        · rw [nameFromId, hg] at hok
          injection hok with h'
          exact ⟨a, ha, nm, hg, h'.symm⟩
      · intro x hx
        obtain ⟨a', ha', hok⟩ := tryMapM_mem _ _ _ hnd x hx
        obtain ⟨a, ha, hbc⟩ := List.mem_map.mp ha'
        subst hbc
        rcases hg : alistGet (beforeColon a) (invertMap speaker_map) with _ | nm
        · rw [nameFromId, hg] at hok; cases hok
        · rw [nameFromId, hg] at hok
          injection hok with h'
          exact ⟨a, ha, nm, hg, h'.symm⟩

/-- C9: the top-K bound. When `topK == 0` the result holds at most
`min(⌈√N⌉, 10)` entries (N the number of cruxes), otherwise at most
`topK`; every returned entry is a strict-upper-triangle cell `(i, j)`,
`i < j < N`, carrying `M[i][j]` and the two crux texts; and the returned
scores are non-increasing. -/
theorem claim9_top_k_bound (cont_mat : List (List ℚ)) (cruxes : List String) (top_k : ℕ)
    (hlen : cruxes.length = cont_mat.length) :
    ((top_k = 0 →
        (top_k_cruxes cont_mat cruxes top_k).length ≤ min (ceilSqrt cruxes.length) 10) ∧
      (0 < top_k → (top_k_cruxes cont_mat cruxes top_k).length ≤ top_k)) ∧
    (∀ e ∈ top_k_cruxes cont_mat cruxes top_k, ∃ i j, i < j ∧ j < cruxes.length ∧
      e.score = (cont_mat.getD i []).getD j 0 ∧
      e.cruxA = cruxes.getD i "" ∧ e.cruxB = cruxes.getD j "") ∧
    (top_k_cruxes cont_mat cruxes top_k).Sorted (fun a b => b.score ≤ a.score) := by
  refine ⟨⟨?_, ?_⟩, ?_, ?_⟩
  · intro h0
    subst h0
    simp only [top_k_cruxes, if_pos rfl, List.length_map, List.length_take]
    exact le_trans (Nat.min_le_left _ _) le_rfl
  · intro hpos
    have hne : top_k ≠ 0 := Nat.pos_iff_ne_zero.mp hpos
    simp only [top_k_cruxes, if_neg hne, List.length_map, List.length_take]
    exact Nat.min_le_left _ _
  · intro e he
    simp only [top_k_cruxes, List.mem_map] at he
    obtain ⟨t, ht, hfe⟩ := he
    have ht2 : t ∈ (((List.range cont_mat.length).flatMap
        (fun x => (List.range' (x + 1) (cont_mat.length - (x + 1))).map
          (fun y => ((cont_mat.getD x []).getD y 0, x, y)))).insertionSort scoreGe) :=
      List.take_subset _ _ ht
    rw [List.mem_insertionSort] at ht2
    rw [List.mem_flatMap] at ht2
    obtain ⟨x, hx, hty⟩ := ht2
    rw [List.mem_map] at hty
    obtain ⟨y, hy, htt⟩ := hty
    rw [List.mem_range'] at hy
    rw [List.mem_range] at hx
    refine ⟨x, y, by omega, by omega, ?_, ?_, ?_⟩
    · rw [← hfe, ← htt]
    · rw [← hfe, ← htt]
    · rw [← hfe, ← htt]
  · simp only [top_k_cruxes]
    apply List.Pairwise.map
    · intro a b hab
      exact hab
    · exact List.Pairwise.sublist (List.take_sublist _ _)
        (List.sorted_insertionSort scoreGe _)

/-- C6: controversy matrix correctness. Over a rectangular score table
(`S` speakers per crux row), every strict-upper-triangle entry is the
per-speaker sum of `pairScore` (0 when the two scores agree, 1/2 when
they differ and one is 0, 1 when they differ and both are non-zero), the
matrix is symmetric, and the diagonal is zero. -/
theorem claim6_controversy_matrix (cont_mat : List CruxScoreRow) (S : ℕ)
    (hrect : ∀ r ∈ cont_mat, r.2.length = S) :
    (∀ i j, i < j → j < cont_mat.length →
      controversy_matrix cont_mat i j =
        ((List.range S).map
          (fun s => pairScore (scoreAt cont_mat i s) (scoreAt cont_mat j s))).sum) ∧
    (∀ i j, controversy_matrix cont_mat j i = controversy_matrix cont_mat i j) ∧
    (∀ i, controversy_matrix cont_mat i i = 0) := by
  refine ⟨?_, ?_, ?_⟩
  · intro i j hij hjN
    have hiN : i < cont_mat.length := lt_trans hij hjN
    rw [controversy_matrix_eq_sum]
    have hf0 : ∀ k row, k ≠ i →
        (fun (k : ℕ) (row : CruxScoreRow) =>
          (row.2.enum.map (fun q =>
            (((cont_mat.drop (k + 1)).map (fun item => item.2.getD q.1 0)).enum.map
              (fun r => innerDelta k q.2 r i j)).sum)).sum) k row = 0 := by
      intro k row hk
      apply List.sum_eq_zero
      intro x hx
      obtain ⟨q, _, rfl⟩ := List.mem_map.mp hx
      apply List.sum_eq_zero
      intro y hy
      obtain ⟨r, _, rfl⟩ := List.mem_map.mp hy
      exact innerDelta_off_row k q.2 r hij hk
    rw [sum_enum_single ("", ([] : List ℚ))
      (fun (k : ℕ) (row : CruxScoreRow) =>
        (row.2.enum.map (fun q =>
          (((cont_mat.drop (k + 1)).map (fun item => item.2.getD q.1 0)).enum.map
            (fun r => innerDelta k q.2 r i j)).sum)).sum)
      i cont_mat hf0, if_pos hiN]
    have hmem : cont_mat.getD i ("", []) ∈ cont_mat := by
      rw [List.getD_eq_getElem?_getD, List.getElem?_eq_getElem hiN]
      exact List.getElem_mem hiN
    have hlen : (cont_mat.getD i ("", [])).2.length = S := hrect _ hmem
    rw [sum_enum_range (0 : ℚ)
      (fun (si : ℕ) (score : ℚ) =>
        (((cont_mat.drop (i + 1)).map (fun item => item.2.getD si 0)).enum.map
          (fun r => innerDelta i score r i j)).sum)
      (cont_mat.getD i ("", [])).2, hlen]
    apply congrArg List.sum
    apply List.map_congr_left
    intro s _
    have hfc : ∀ oi os, oi ≠ j - i - 1 →
        (fun (oi : ℕ) (os : ℚ) =>
          innerDelta i ((cont_mat.getD i ("", [])).2.getD s 0) (oi, os) i j) oi os = 0 :=
      fun oi os hoi => innerDelta_off_col _ os oi hij hoi
    rw [sum_enum_single (0 : ℚ)
      (fun (oi : ℕ) (os : ℚ) =>
        innerDelta i ((cont_mat.getD i ("", [])).2.getD s 0) (oi, os) i j)
      (j - i - 1) ((cont_mat.drop (i + 1)).map (fun item => item.2.getD s 0)) hfc]
    rw [if_pos (by rw [List.length_map, List.length_drop]; omega)]
    have hothers :
        ((cont_mat.drop (i + 1)).map (fun item => item.2.getD s 0)).getD (j - i - 1) 0 =
          scoreAt cont_mat j s := by
      rw [List.getD_eq_getElem?_getD, List.getElem?_map, List.getElem?_drop]
      have harith : i + 1 + (j - i - 1) = j := by omega
      rw [harith, List.getElem?_eq_getElem hjN]
      simp [scoreAt, List.getD_eq_getElem?_getD, List.getElem?_eq_getElem hjN]
    rw [hothers, innerDelta_at hij]
    rfl
  · intro i j
    rw [controversy_matrix_eq_sum, controversy_matrix_eq_sum]
    apply congrArg List.sum
    apply List.map_congr_left
    intro p _
    apply congrArg List.sum
    apply List.map_congr_left
    intro q _
    apply congrArg List.sum
    apply List.map_congr_left
    intro r _
    exact innerDelta_symm p.1 q.2 r i j
  · intro i
    rw [controversy_matrix_eq_sum]
    apply List.sum_eq_zero
    intro x hx
    obtain ⟨p, _, rfl⟩ := List.mem_map.mp hx
    apply List.sum_eq_zero
    intro y hy
    obtain ⟨q, _, rfl⟩ := List.mem_map.mp hy
    apply List.sum_eq_zero
    intro z hz
    obtain ⟨r, _, rfl⟩ := List.mem_map.mp hz
    exact innerDelta_diag p.1 q.2 r i

/-- C6, witness: the statement applied to the spec's two-crux,
three-speaker score table. -/
theorem claim6_witness :
    (∀ r ∈ ([("crux0", [1, 1/2, 0]), ("crux1", [1/2, 1, 0])] : List CruxScoreRow),
      r.2.length = 3) ∧
    ((∀ i j, i < j →
        j < ([("crux0", [1, 1/2, 0]), ("crux1", [1/2, 1, 0])] : List CruxScoreRow).length →
        controversy_matrix [("crux0", [1, 1/2, 0]), ("crux1", [1/2, 1, 0])] i j =
          ((List.range 3).map
            (fun s => pairScore (scoreAt [("crux0", [1, 1/2, 0]), ("crux1", [1/2, 1, 0])] i s)
              (scoreAt [("crux0", [1, 1/2, 0]), ("crux1", [1/2, 1, 0])] j s))).sum) ∧
      (∀ i j, controversy_matrix [("crux0", [1, 1/2, 0]), ("crux1", [1/2, 1, 0])] j i =
        controversy_matrix [("crux0", [1, 1/2, 0]), ("crux1", [1/2, 1, 0])] i j) ∧
      (∀ i, controversy_matrix [("crux0", [1, 1/2, 0]), ("crux1", [1/2, 1, 0])] i i = 0)) :=
  ⟨by decide,
   claim6_controversy_matrix [("crux0", [1, 1/2, 0]), ("crux1", [1/2, 1, 0])] 3
     (by decide)⟩

/-- C9, witness: the bound applied to a concrete 2×2 matrix. -/
theorem claim9_witness :
    ((["a", "b"] : List String).length = ([[0, 2], [2, 0]] : List (List ℚ)).length) ∧
    (((1 = 0 →
        (top_k_cruxes [[0, 2], [2, 0]] ["a", "b"] 1).length ≤
          min (ceilSqrt (["a", "b"] : List String).length) 10) ∧
      (0 < 1 → (top_k_cruxes [[0, 2], [2, 0]] ["a", "b"] 1).length ≤ 1)) ∧
    (∀ e ∈ top_k_cruxes [[0, 2], [2, 0]] ["a", "b"] 1, ∃ i j, i < j ∧
      j < (["a", "b"] : List String).length ∧
      e.score = (([[0, 2], [2, 0]] : List (List ℚ)).getD i []).getD j 0 ∧
      e.cruxA = (["a", "b"] : List String).getD i "" ∧
      e.cruxB = (["a", "b"] : List String).getD j "") ∧
    (top_k_cruxes [[0, 2], [2, 0]] ["a", "b"] 1).Sorted (fun a b => b.score ≤ a.score)) :=
  ⟨by decide, claim9_top_k_bound [[0, 2], [2, 0]] ["a", "b"] 1 (by decide)⟩

/-- C7, witness: the amended statement applied to the concrete speaker
map and crux of the counterexample. -/
theorem claim7_amended_witness :
    processCruxRows spkMapEx [cruxEx] = .ok [cruxRowEx] ∧
    (∀ r ∈ [cruxRowEx], ∃ c ∈ [cruxEx],
      (∀ x ∈ r.agree, ∃ a ∈ c.agree, ∃ nm,
        alistGet (beforeColon a) (invertMap spkMapEx) = some nm ∧
        x = beforeColon a ++ ":" ++ nm) ∧
      (∀ x ∈ r.disagree, ∃ a ∈ c.disagree, ∃ nm,
        alistGet (beforeColon a) (invertMap spkMapEx) = some nm ∧
        x = beforeColon a ++ ":" ++ nm)) :=
  ⟨by decide, claim7_amended spkMapEx [cruxEx] [cruxRowEx] (by decide)⟩

/-! #### Digit characters and decimal renderings -/

theorem digitChar_toNat {d : Nat} (hd : d < 10) : (Char.ofNat (48 + d)).toNat = 48 + d := by
  interval_cases d <;> decide

theorem isDigitChar_iff {c : Char} : isDigitChar c = true ↔ (48 ≤ c.toNat ∧ c.toNat ≤ 57) := by
  simp [isDigitChar]

theorem isDigitChar_ofNat {d : Nat} (hd : d < 10) : isDigitChar (Char.ofNat (48 + d)) = true := by
  interval_cases d <;> decide

theorem natCharsAux_all_digit : ∀ fuel n, ∀ c ∈ natCharsAux fuel n, isDigitChar c = true := by
  intro fuel
  induction fuel with
  | zero => intro n c hc; simp [natCharsAux] at hc
  | succ fuel ih =>
    intro n c hc
    simp only [natCharsAux] at hc
    by_cases h10 : n < 10
    · rw [if_pos h10] at hc
      simp only [List.mem_singleton] at hc
      subst hc; exact isDigitChar_ofNat h10
    · rw [if_neg h10] at hc
      rcases List.mem_append.mp hc with h | h
      · exact ih _ c h
      · simp only [List.mem_singleton] at h
        subst h; exact isDigitChar_ofNat (Nat.mod_lt _ (by norm_num))

theorem natCharsAux_ne_nil (fuel n : Nat) (h : 0 < fuel) : natCharsAux fuel n ≠ [] := by
  rcases fuel with _ | fuel
  · omega
  · simp only [natCharsAux]
    by_cases h10 : n < 10
    · rw [if_pos h10]; simp
    · rw [if_neg h10]; simp

theorem natCharsAux_head_ne_zero : ∀ fuel n, n < fuel → 1 ≤ n →
    (natCharsAux fuel n).head? ≠ some '0' := by
  intro fuel
  induction fuel with
  | zero => intro n h _; omega
  | succ fuel ih =>
    intro n hn h1
    simp only [natCharsAux]
    by_cases h10 : n < 10
    · rw [if_pos h10]
      intro hc
      simp only [List.head?_cons, Option.some.injEq] at hc
      have h2 := congrArg Char.toNat hc
      rw [digitChar_toNat h10] at h2
      have h3 : ('0' : Char).toNat = 48 := rfl
      omega
    · rw [if_neg h10]
      have hne := natCharsAux_ne_nil fuel (n / 10) (by omega)
      rcases hx : natCharsAux fuel (n / 10) with _ | ⟨a, as⟩
      · exact absurd hx hne
      · have h4 := ih (n / 10) (by omega) (by omega)
        rw [hx] at h4
        simpa using h4

theorem natCharsAux_val : ∀ fuel n a, n < fuel →
    (natCharsAux fuel n).foldl (fun x d => 10 * x + (d.toNat - 48)) a =
      a * 10 ^ (natCharsAux fuel n).length + n := by
  intro fuel
  induction fuel with
  | zero => intro n a h; omega
  | succ fuel ih =>
    intro n a hn
    simp only [natCharsAux]
    by_cases h10 : n < 10
    · rw [if_pos h10]
      simp only [List.foldl_cons, List.foldl_nil, List.length_cons, List.length_nil]
      rw [digitChar_toNat h10]
      have : a * 10 ^ (0 + 1) = a * 10 := by ring
      rw [this]
      omega
    · rw [if_neg h10]
      rw [List.foldl_append, List.length_append]
      rw [ih (n / 10) a (by omega)]
      simp only [List.foldl_cons, List.foldl_nil, List.length_cons, List.length_nil]
      rw [digitChar_toNat (Nat.mod_lt _ (by norm_num))]
      have hsub : 48 + n % 10 - 48 = n % 10 := by omega
      rw [hsub]
      have hdm : 10 * (n / 10) + n % 10 = n := by omega
      calc 10 * (a * 10 ^ (natCharsAux fuel (n / 10)).length + n / 10) + n % 10
          = a * (10 ^ (natCharsAux fuel (n / 10)).length * 10) +
              (10 * (n / 10) + n % 10) := by ring
        _ = a * 10 ^ ((natCharsAux fuel (n / 10)).length + (0 + 1)) + n := by
              rw [hdm, pow_succ]

/-! #### `takeWhile`/`dropWhile`/`skipJsonWs` on controlled inputs -/

theorem takeWhile_append_all {p : Char → Bool} : ∀ (l rest : Chars),
    (∀ c ∈ l, p c = true) → headFails p rest → (l ++ rest).takeWhile p = l := by
  intro l
  induction l with
  | nil =>
    intro rest _ hrest
    rcases rest with _ | ⟨c, t⟩
    · rfl
    · simp only [headFails] at hrest
      simp [List.takeWhile_cons, hrest]
  | cons c cs ih =>
    intro rest hall hrest
    have hc : p c = true := hall c (by simp)
    simp only [List.cons_append, List.takeWhile_cons, hc, if_true]
    rw [ih rest (fun d hd => hall d (by simp [hd])) hrest]

theorem dropWhile_append_all {p : Char → Bool} : ∀ (l rest : Chars),
    (∀ c ∈ l, p c = true) → headFails p rest → (l ++ rest).dropWhile p = rest := by
  intro l
  induction l with
  | nil =>
    intro rest _ hrest
    rcases rest with _ | ⟨c, t⟩
    · rfl
    · simp only [headFails] at hrest
      simp [List.dropWhile_cons, hrest]
  | cons c cs ih =>
    intro rest hall hrest
    have hc : p c = true := hall c (by simp)
    simp only [List.cons_append, List.dropWhile_cons, hc, if_true]
    exact ih rest (fun d hd => hall d (by simp [hd])) hrest

theorem skipJsonWs_not_ws {c : Char} {t : Chars} (h : isJsonWs c = false) :
    skipJsonWs (c :: t) = c :: t := by
  simp [skipJsonWs, h]

theorem isJsonWs_false_of_range {c : Char} (h : 44 ≤ c.toNat ∧ c.toNat ≤ 57) :
    isJsonWs c = false := by
  have hnot : ¬ (c = ' ' ∨ c = '\t' ∨ c = '\n' ∨ c = '\r') := by
    rintro (h1 | h1 | h1 | h1) <;> subst h1 <;> exact absurd h (by decide)
  simp only [isJsonWs]
  exact decide_eq_false hnot

theorem ne_of_toNat_range {c d : Char} (h : 44 ≤ c.toNat ∧ c.toNat ≤ 57)
    (hd : d.toNat < 44 ∨ 57 < d.toNat) : c ≠ d := by
  intro he; subst he; omega

theorem digit_ne {c d : Char} (hc : isDigitChar c = true)
    (hd : d.toNat < 48 ∨ 57 < d.toNat) : c ≠ d := by
  rw [isDigitChar_iff] at hc; intro he; subst he; omega

/-! #### Parsing back a serialized integer -/

theorem parseUnsignedNum_append (l rest : Chars) (hne : l ≠ [])
    (hdig : ∀ c ∈ l, isDigitChar c = true)
    (hhead : l.head? ≠ some '0' ∨ l = ['0']) (hrest : headFails isDigitChar rest) :
    parseUnsignedNum (l ++ rest) =
      some (l.foldl (fun x d => 10 * x + (d.toNat - 48)) 0, rest) := by
  rcases l with _ | ⟨c, cs⟩
  · exact absurd rfl hne
  · simp only [List.cons_append, parseUnsignedNum]
    by_cases hc0 : c = '0'
    · rcases hhead with hh | hh
      · exact absurd (by rw [hc0]; rfl) hh
      · have hcs : cs = [] := by
          have := congrArg List.tail hh
          simpa using this
        subst hcs; subst hc0
        rw [if_pos rfl]
        rfl
    · rw [if_neg hc0, if_pos (hdig c (by simp))]
      rw [takeWhile_append_all cs rest (fun d hd => hdig d (by simp [hd])) hrest]
      rw [dropWhile_append_all cs rest (fun d hd => hdig d (by simp [hd])) hrest]

theorem parseUnsignedNum_natChars (n : Nat) (rest : Chars)
    (hrest : headFails isDigitChar rest) :
    parseUnsignedNum (natChars n ++ rest) = some (n, rest) := by
  rw [natChars]
  rw [parseUnsignedNum_append _ rest (natCharsAux_ne_nil _ _ (by omega))
    (natCharsAux_all_digit _ n) ?hd hrest]
  · rw [natCharsAux_val (n + 1) n 0 (by omega)]
    simp
  · rcases Nat.eq_zero_or_pos n with h0 | h1
    · subst h0; right; rfl
    · left; exact natCharsAux_head_ne_zero (n + 1) n (by omega) h1

theorem intChars_chars (n : Int) : ∀ c ∈ intChars n, 44 ≤ c.toNat ∧ c.toNat ≤ 57 := by
  intro c hc
  rw [intChars] at hc
  by_cases hneg : n < 0
  · rw [if_pos hneg] at hc
    rcases List.mem_cons.mp hc with h | h
    · subst h; decide
    · have := natCharsAux_all_digit _ _ c h
      rw [isDigitChar_iff] at this
      omega
  · rw [if_neg hneg] at hc
    have := natCharsAux_all_digit _ _ c hc
    rw [isDigitChar_iff] at this
    omega

theorem intChars_ne_nil (n : Int) : intChars n ≠ [] := by
  rw [intChars]
  by_cases hneg : n < 0
  · rw [if_pos hneg]; simp
  · rw [if_neg hneg]; exact natCharsAux_ne_nil _ _ (by omega)

theorem parseNumber_intChars (n : Int) (rest : Chars)
    (hrest : headFails isDigitChar rest) :
    parseNumber (intChars n ++ rest) = some (n, rest) := by
  by_cases hneg : n < 0
  · have h1 : intChars n = '-' :: natChars n.natAbs := by rw [intChars, if_pos hneg]
    rw [h1, List.cons_append]
    simp only [parseNumber, if_pos rfl, if_true]
    rw [parseUnsignedNum_natChars n.natAbs rest hrest]
    simp only [Option.map_some']
    have : -(n.natAbs : Int) = n := by omega
    rw [this]
  · have h1 : intChars n = natChars n.natAbs := by rw [intChars, if_neg hneg]
    have hne := natCharsAux_ne_nil (n.natAbs + 1) n.natAbs (by omega)
    rcases hx : natChars n.natAbs with _ | ⟨c, cs⟩
    · exact absurd (by rw [natChars] at hx; exact hx) hne
    · have hcd : isDigitChar c = true := by
        apply natCharsAux_all_digit (n.natAbs + 1) n.natAbs
        rw [show natCharsAux (n.natAbs + 1) n.natAbs = natChars n.natAbs from rfl, hx]
        simp
      have hcm : c ≠ '-' := digit_ne hcd (by decide)
      rw [h1, hx, List.cons_append]
      simp only [parseNumber, if_neg hcm]
      rw [← List.cons_append, ← hx, parseUnsignedNum_natChars n.natAbs rest hrest]
      simp only [Option.map_some']
      have : (n.natAbs : Int) = n := by omega
      rw [this]

/-! #### `parseVal` on a serialized integer -/

theorem startsWithChars_cons_ne {p c : Char} {ps t : Chars} (h : p ≠ c) :
    startsWithChars (p :: ps) (c :: t) = false := by
  simp [startsWithChars, h]

theorem startsWithChars_self_append : ∀ (p r : Chars), startsWithChars p (p ++ r) = true := by
  intro p
  induction p with
  | nil => intro r; rfl
  | cons c cs ih => intro r; simp [startsWithChars, ih]

theorem intChars_head (n : Int) :
    ∃ c cs, intChars n = c :: cs ∧ (c = '-' ∨ isDigitChar c = true) := by
  rw [intChars]
  by_cases hneg : n < 0
  · rw [if_pos hneg]; exact ⟨'-', natChars n.natAbs, rfl, .inl rfl⟩
  · rw [if_neg hneg]
    rcases hx : natChars n.natAbs with _ | ⟨c, cs⟩
    · exact absurd hx (natCharsAux_ne_nil _ _ (by omega))
    · refine ⟨c, cs, rfl, .inr ?_⟩
      apply natCharsAux_all_digit (n.natAbs + 1) n.natAbs
      rw [show natCharsAux (n.natAbs + 1) n.natAbs = natChars n.natAbs from rfl, hx]
      simp

theorem num_head_not_kw {c : Char} (hc : c = '-' ∨ isDigitChar c = true) :
    c ≠ '\x7b' ∧ c ≠ '[' ∧ c ≠ '"' ∧ c ≠ 't' ∧ c ≠ 'f' ∧ c ≠ 'n' := by
  rcases hc with h | h
  · subst h
    exact ⟨by decide, by decide, by decide, by decide, by decide, by decide⟩
  · exact ⟨digit_ne h (by decide), digit_ne h (by decide), digit_ne h (by decide),
      digit_ne h (by decide), digit_ne h (by decide), digit_ne h (by decide)⟩

theorem parseVal_num (fuel : Nat) (n : Int) (rest : Chars)
    (hrest : headFails isDigitChar rest) :
    parseVal (fuel + 1) (intChars n ++ rest) = some (.num n, rest) := by
  obtain ⟨c, cs, hx, hc⟩ := intChars_head n
  obtain ⟨h7b, hbr, hq, ht, hf, hn⟩ := num_head_not_kw hc
  have hT : startsWithChars ['t', 'r', 'u', 'e'] (c :: (cs ++ rest)) = false :=
    startsWithChars_cons_ne (Ne.symm ht)
  have hF : startsWithChars ['f', 'a', 'l', 's', 'e'] (c :: (cs ++ rest)) = false :=
    startsWithChars_cons_ne (Ne.symm hf)
  have hN : startsWithChars ['n', 'u', 'l', 'l'] (c :: (cs ++ rest)) = false :=
    startsWithChars_cons_ne (Ne.symm hn)
  have hnum : parseNumber (c :: (cs ++ rest)) = some (n, rest) := by
    rw [← List.cons_append, ← hx]
    exact parseNumber_intChars n rest hrest
  rw [hx, List.cons_append]
  simp only [parseVal]
  split
  · rename_i hTrue
    rw [hT] at hTrue
    exact absurd hTrue (by simp)
  · simp [hF, hN, hnum]

/-! #### Serialized claims-object shape -/

theorem headFails_cons {p : Char → Bool} {c : Char} {t : Chars} (h : p c = false) :
    headFails p (c :: t) := h

theorem intsArr_cons (x : Int) (xs : List Int) : intsArr (x :: xs) = .num x :: intsArr xs := rfl

theorem dumpStringChars_claims :
    dumpStringChars "claims" = ['"', 'c', 'l', 'a', 'i', 'm', 's', '"'] := rfl

theorem dumps_claimsObj (X : List Json) :
    Json.dumps (claimsObj X) =
      '\x7b' :: '"' :: 'c' :: 'l' :: 'a' :: 'i' :: 'm' :: 's' :: '"' :: ':' :: ' ' :: '[' ::
        (Json.dumpsList X ++ ']' :: '\x7d' :: []) := by
  simp [claimsObj, Json.dumps, Json.dumpsFields, dumpStringChars_claims]

theorem dumps_claimsObj_length (X : List Json) :
    (Json.dumps (claimsObj X)).length = 14 + (Json.dumpsList X).length := by
  rw [dumps_claimsObj]
  simp only [List.length_cons, List.length_append, List.length_nil]
  omega

theorem dumpsList_ints_cons_eq (y : Int) (ys : List Int) :
    ∃ t, Json.dumpsList (intsArr (y :: ys)) = intChars y ++ t := by
  rcases ys with _ | ⟨z, zs⟩
  · exact ⟨[], by simp [intsArr, Json.dumpsList, Json.dumps]⟩
  · exact ⟨',' :: ' ' :: Json.dumpsList (intsArr (z :: zs)), rfl⟩

theorem dumpsList_ints_length (A : List Int) :
    A.length ≤ (Json.dumpsList (intsArr A)).length := by
  induction A with
  | nil => simp
  | cons x xs ih =>
    have hx : 0 < (intChars x).length := List.length_pos.mpr (intChars_ne_nil x)
    rcases xs with _ | ⟨y, ys⟩
    · rw [show Json.dumpsList (intsArr [x]) = intChars x from rfl]
      simpa using hx
    · rw [show Json.dumpsList (intsArr (x :: y :: ys)) =
            intChars x ++ ',' :: ' ' :: Json.dumpsList (intsArr (y :: ys)) from rfl]
      simp only [List.length_append, List.length_cons] at ih ⊢
      omega

theorem dumpsList_ints_chars (A : List Int) :
    ∀ c ∈ Json.dumpsList (intsArr A), (44 ≤ c.toNat ∧ c.toNat ≤ 57) ∨ c = ' ' := by
  induction A with
  | nil => intro c hc; simp [intsArr, Json.dumpsList] at hc
  | cons x xs ih =>
    rcases xs with _ | ⟨y, ys⟩
    · intro c hc
      rw [show Json.dumpsList (intsArr [x]) = intChars x from rfl] at hc
      exact .inl (intChars_chars x c hc)
    · intro c hc
      rw [show Json.dumpsList (intsArr (x :: y :: ys)) =
            intChars x ++ ',' :: ' ' :: Json.dumpsList (intsArr (y :: ys)) from rfl] at hc
      rcases List.mem_append.mp hc with h | h
      · exact .inl (intChars_chars x c h)
      · rcases List.mem_cons.mp h with h1 | h1
        · subst h1; left; decide
        · rcases List.mem_cons.mp h1 with h2 | h2
          · subst h2; right; rfl
          · exact ih c h2

theorem num_head_not_ws {c : Char} (hc : c = '-' ∨ isDigitChar c = true) :
    isJsonWs c = false := by
  rcases hc with h | h
  · subst h; decide
  · rw [isDigitChar_iff] at h
    exact isJsonWs_false_of_range ⟨by omega, by omega⟩

/-! #### Parsing back a serialized int array -/

theorem parseArrItems_ints : ∀ (xs : List Int) (x : Int) (acc : List Json) (tl : Chars)
    (fuel : Nat), xs.length + 2 ≤ fuel →
    parseArrItems fuel (Json.dumpsList (intsArr (x :: xs)) ++ ']' :: tl) acc =
      some (.arr (acc ++ intsArr (x :: xs)), tl) := by
  intro xs
  induction xs with
  | nil =>
    intro x acc tl fuel hfuel
    obtain ⟨f, rfl⟩ : ∃ f, fuel = f + 2 := ⟨fuel - 2, by omega⟩
    rw [show Json.dumpsList (intsArr [x]) = intChars x from rfl]
    simp only [parseArrItems]
    rw [parseVal_num f x (']' :: tl) (headFails_cons (by decide))]
    rfl
  | cons y ys ih =>
    intro x acc tl fuel hfuel
    obtain ⟨f1, rfl⟩ : ∃ f1, fuel = f1 + 2 := ⟨fuel - 2, by omega⟩
    rw [show Json.dumpsList (intsArr (x :: y :: ys)) =
          intChars x ++ ',' :: ' ' :: Json.dumpsList (intsArr (y :: ys)) from rfl]
    have happ : (intChars x ++ ',' :: ' ' :: Json.dumpsList (intsArr (y :: ys))) ++ ']' :: tl =
        intChars x ++ ',' :: ' ' :: (Json.dumpsList (intsArr (y :: ys)) ++ ']' :: tl) := by
      simp
    rw [happ]
    simp only [parseArrItems]
    rw [parseVal_num f1 x _ (headFails_cons (by decide))]
    show parseArrItems (f1 + 1)
        (skipJsonWs (Json.dumpsList (intsArr (y :: ys)) ++ ']' :: tl))
        (acc ++ [Json.num x]) = _
    obtain ⟨t, ht⟩ := dumpsList_ints_cons_eq y ys
    obtain ⟨c, cs, hx, hc⟩ := intChars_head y
    have hcons : Json.dumpsList (intsArr (y :: ys)) ++ ']' :: tl =
        c :: (cs ++ (t ++ ']' :: tl)) := by
      rw [ht, hx]; simp
    rw [hcons, skipJsonWs_not_ws (num_head_not_ws hc), ← hcons]
    rw [ih y (acc ++ [Json.num x]) tl (f1 + 1) (by simp at hfuel ⊢; omega)]
    simp [intsArr_cons]

theorem parseVal_intsArr (X : List Int) (tl : Chars) (fuel : Nat)
    (hfuel : X.length + 2 ≤ fuel) :
    parseVal fuel ('[' :: (Json.dumpsList (intsArr X) ++ ']' :: tl)) =
      some (.arr (intsArr X), tl) := by
  obtain ⟨f, rfl⟩ : ∃ f, fuel = f + 1 := ⟨fuel - 1, by omega⟩
  rcases X with _ | ⟨x, xs⟩
  · rfl
  · simp only [parseVal]
    obtain ⟨t, ht⟩ := dumpsList_ints_cons_eq x xs
    obtain ⟨c, cs, hx, hc⟩ := intChars_head x
    have hne : c ≠ ']' := by
      rcases hc with h | h
      · subst h; decide
      · exact digit_ne h (by decide)
    have hcons : Json.dumpsList (intsArr (x :: xs)) ++ ']' :: tl =
        c :: (cs ++ (t ++ ']' :: tl)) := by
      rw [ht, hx]; simp
    rw [hcons, skipJsonWs_not_ws (num_head_not_ws hc)]
    split
    · rename_i r2 heq
      rw [List.cons.injEq] at heq
      exact absurd heq.1 hne
    · rw [← hcons]
      rw [parseArrItems_ints xs x [] tl f (by simp at hfuel ⊢; omega)]
      simp

/-! #### Parsing back a full serialized claims object -/

theorem parseStringBody_claims (r : Chars) :
    parseStringBody [] ('c' :: 'l' :: 'a' :: 'i' :: 'm' :: 's' :: '"' :: r) =
      some ("claims", r) := rfl

theorem parseVal_claimsObjDump (X : List Int) (rest : Chars) (fuel : Nat)
    (hfuel : X.length + 4 ≤ fuel) :
    parseVal fuel (Json.dumps (claimsObj (intsArr X)) ++ rest) =
      some (claimsObj (intsArr X), rest) := by
  obtain ⟨g, rfl⟩ : ∃ g, fuel = g + 2 := ⟨fuel - 2, by omega⟩
  have hls : Json.dumps (claimsObj (intsArr X)) ++ rest =
      '\x7b' :: '"' :: 'c' :: 'l' :: 'a' :: 'i' :: 'm' :: 's' :: '"' :: ':' :: ' ' :: '[' ::
        (Json.dumpsList (intsArr X) ++ ']' :: '\x7d' :: rest) := by
    rw [dumps_claimsObj]; simp
  rw [hls]
  simp only [parseVal]
  show parseObjItems (g + 1)
      ('"' :: 'c' :: 'l' :: 'a' :: 'i' :: 'm' :: 's' :: '"' :: ':' :: ' ' :: '[' ::
        (Json.dumpsList (intsArr X) ++ ']' :: '\x7d' :: rest)) [] = _
  simp only [parseObjItems]
  rw [parseStringBody_claims]
  show (match parseVal g ('[' :: (Json.dumpsList (intsArr X) ++ ']' :: '\x7d' :: rest)) with
        | none => none
        | some (v, r3) =>
          match skipJsonWs r3 with
          | ',' :: r5 => parseObjItems g (skipJsonWs r5) (alistSet "claims" v [])
          | '\x7d' :: r5 => some (.obj (alistSet "claims" v []), r5)
          | _ => none) = _
  rw [parseVal_intsArr X ('\x7d' :: rest) g (by omega)]
  rfl

theorem skipJsonWs_dumps_claimsObj_append (X : List Json) (r : Chars) :
    skipJsonWs (Json.dumps (claimsObj X) ++ r) = Json.dumps (claimsObj X) ++ r := by
  rw [dumps_claimsObj, List.cons_append]
  exact skipJsonWs_not_ws (by decide)

theorem skipJsonWs_dumps_claimsObj (X : List Json) :
    skipJsonWs (Json.dumps (claimsObj X)) = Json.dumps (claimsObj X) := by
  rw [dumps_claimsObj]
  exact skipJsonWs_not_ws (by decide)

theorem loadsChars_claimsObjDump (X : List Int) :
    loadsChars (Json.dumps (claimsObj (intsArr X))) = some (claimsObj (intsArr X)) := by
  simp only [loadsChars, skipJsonWs_dumps_claimsObj]
  have hp := parseVal_claimsObjDump X []
    ((Json.dumps (claimsObj (intsArr X))).length + 1) ?_
  · rw [List.append_nil] at hp
    rw [hp]
    rfl
  · rw [dumps_claimsObj_length]
    have := dumpsList_ints_length X
    omega

theorem loadsChars_concat_none (A B : List Int) :
    loadsChars (Json.dumps (claimsObj (intsArr A)) ++
      ' ' :: Json.dumps (claimsObj (intsArr B))) = none := by
  simp only [loadsChars, skipJsonWs_dumps_claimsObj_append]
  rw [parseVal_claimsObjDump A (' ' :: Json.dumps (claimsObj (intsArr B))) _ ?_]
  · show (if skipJsonWs (' ' :: Json.dumps (claimsObj (intsArr B))) = [] then
        some (claimsObj (intsArr A)) else none) = none
    have hsk : skipJsonWs (' ' :: Json.dumps (claimsObj (intsArr B))) =
        skipJsonWs (Json.dumps (claimsObj (intsArr B))) := rfl
    rw [hsk, skipJsonWs_dumps_claimsObj]
    rw [if_neg (by rw [dumps_claimsObj]; simp)]
  · rw [List.length_append, List.length_cons, dumps_claimsObj_length]
    have := dumpsList_ints_length A
    omega

/-! #### Character classification of the serialized payload -/

theorem intChars_chars2 (n : Int) :
    ∀ c ∈ intChars n, c.toNat = 45 ∨ (48 ≤ c.toNat ∧ c.toNat ≤ 57) := by
  intro c hc
  rw [intChars] at hc
  by_cases hneg : n < 0
  · rw [if_pos hneg] at hc
    rcases List.mem_cons.mp hc with h | h
    · subst h; left; rfl
    · have := natCharsAux_all_digit _ _ c h
      rw [isDigitChar_iff] at this
      right; omega
  · rw [if_neg hneg] at hc
    have := natCharsAux_all_digit _ _ c hc
    rw [isDigitChar_iff] at this
    right; omega

theorem dumpsList_ints_chars2 (A : List Int) :
    ∀ c ∈ Json.dumpsList (intsArr A),
      (c.toNat = 44 ∨ c.toNat = 45 ∨ (48 ≤ c.toNat ∧ c.toNat ≤ 57)) ∨ c = ' ' := by
  induction A with
  | nil => intro c hc; simp [intsArr, Json.dumpsList] at hc
  | cons x xs ih =>
    rcases xs with _ | ⟨y, ys⟩
    · intro c hc
      rw [show Json.dumpsList (intsArr [x]) = intChars x from rfl] at hc
      rcases intChars_chars2 x c hc with h | h
      · exact .inl (.inr (.inl h))
      · exact .inl (.inr (.inr h))
    · intro c hc
      rw [show Json.dumpsList (intsArr (x :: y :: ys)) =
            intChars x ++ ',' :: ' ' :: Json.dumpsList (intsArr (y :: ys)) from rfl] at hc
      rcases List.mem_append.mp hc with h | h
      · rcases intChars_chars2 x c h with h1 | h1
        · exact .inl (.inr (.inl h1))
        · exact .inl (.inr (.inr h1))
      · rcases List.mem_cons.mp h with h1 | h1
        · subst h1; left; left; rfl
        · rcases List.mem_cons.mp h1 with h2 | h2
          · subst h2; right; rfl
          · exact ih c h2

theorem dumps_claimsObj_ints_chars (X : List Int) :
    ∀ c ∈ Json.dumps (claimsObj (intsArr X)),
      (c.toNat = 44 ∨ c.toNat = 45 ∨ (48 ≤ c.toNat ∧ c.toNat ≤ 57)) ∨
      (c = '\x7b' ∨ c = '"' ∨ c = 'c' ∨ c = 'l' ∨ c = 'a' ∨ c = 'i' ∨ c = 'm' ∨ c = 's' ∨
       c = ':' ∨ c = ' ' ∨ c = '[' ∨ c = ']' ∨ c = '\x7d') := by
  intro c hc
  rw [dumps_claimsObj] at hc
  simp only [List.mem_cons, List.mem_append, List.mem_singleton] at hc
  rcases hc with h|h|h|h|h|h|h|h|h|h|h|h|h|h|h|h
  · subst h; right; decide
  · subst h; right; decide
  · subst h; right; decide
  · subst h; right; decide
  · subst h; right; decide
  · subst h; right; decide
  · subst h; right; decide
  · subst h; right; decide
  · subst h; right; decide
  · subst h; right; decide
  · subst h; right; decide
  · subst h; right; decide
  · rcases dumpsList_ints_chars2 X c h with h2 | h2
    · exact .inl h2
    · subst h2; right; decide
  · subst h; right; decide
  · subst h; right; decide
  · simp at h

theorem dumps_claimsObj_ints_ne (X : List Int) {d : Char}
    (h44 : ¬ (d.toNat = 44 ∨ d.toNat = 45 ∨ (48 ≤ d.toNat ∧ d.toNat ≤ 57)))
    (hlit : ¬ (d = '\x7b' ∨ d = '"' ∨ d = 'c' ∨ d = 'l' ∨ d = 'a' ∨ d = 'i' ∨ d = 'm' ∨
      d = 's' ∨ d = ':' ∨ d = ' ' ∨ d = '[' ∨ d = ']' ∨ d = '\x7d')) :
    ∀ c ∈ Json.dumps (claimsObj (intsArr X)), c ≠ d := by
  intro c hc he
  subst he
  rcases dumps_claimsObj_ints_chars X c hc with h | h
  · exact h44 h
  · exact hlit h

theorem concat_payload_ne (A B : List Int) {d : Char}
    (h44 : ¬ (d.toNat = 44 ∨ d.toNat = 45 ∨ (48 ≤ d.toNat ∧ d.toNat ≤ 57)))
    (hlit : ¬ (d = '\x7b' ∨ d = '"' ∨ d = 'c' ∨ d = 'l' ∨ d = 'a' ∨ d = 'i' ∨ d = 'm' ∨
      d = 's' ∨ d = ':' ∨ d = ' ' ∨ d = '[' ∨ d = ']' ∨ d = '\x7d')) :
    ∀ c ∈ Json.dumps (claimsObj (intsArr A)) ++
        ' ' :: Json.dumps (claimsObj (intsArr B)), c ≠ d := by
  intro c hc
  rcases List.mem_append.mp hc with h | h
  · exact dumps_claimsObj_ints_ne A h44 hlit c h
  · rcases List.mem_cons.mp h with h1 | h1
    · subst h1
      intro he
      exact hlit (by rw [← he]; decide)
    · exact dumps_claimsObj_ints_ne B h44 hlit c h1

/-! #### `clean_json_comments` is the identity on the payload -/

theorem commentScan_none : ∀ (l : Chars) (ins esc : Bool) (i : Nat),
    (∀ c ∈ l, c ≠ '/') → commentScan ins esc i l = none := by
  intro l
  induction l with
  | nil => intro ins esc i _; rfl
  | cons c rest ih =>
    intro ins esc i h
    have hc : c ≠ '/' := h c (by simp)
    have hrest : ∀ c' ∈ rest, c' ≠ '/' := fun c' hc' => h c' (by simp [hc'])
    simp only [commentScan]
    split_ifs with h1 h2 h3 h4
    · exact ih _ _ _ hrest
    · exact ih _ _ _ hrest
    · exact ih _ _ _ hrest
    · exact absurd h4.2.1 hc
    · exact ih _ _ _ hrest

theorem cleanLine_id {l : Chars} (h : ∀ c ∈ l, c ≠ '/') : cleanLine l = l := by
  simp [cleanLine, commentScan_none l false false 0 h]

theorem pySplitAux_no_sep : ∀ (cs : Chars) (fuel : Nat) (acc : Chars),
    (∀ c ∈ cs, c ≠ '\n') → pySplitAux ['\n'] fuel acc cs = [acc.reverse ++ cs] := by
  intro cs
  induction cs with
  | nil =>
    intro fuel acc _
    rcases fuel with _ | fuel
    · rfl
    · simp [pySplitAux]
  | cons c rest ih =>
    intro fuel acc h
    rcases fuel with _ | fuel
    · rfl
    · have hc : ('\n' : Char) ≠ c := Ne.symm (h c (by simp))
      simp only [pySplitAux, startsWithChars_cons_ne hc]
      rw [if_neg (by simp)]
      rw [ih fuel (c :: acc) (fun c' hc' => h c' (by simp [hc']))]
      simp

theorem clean_json_comments_id (c0 : Char) (t : Chars)
    (hsl : ∀ c ∈ c0 :: t, c ≠ '/') (hnl : ∀ c ∈ c0 :: t, c ≠ '\n')
    (hstrip : pyStrip (c0 :: t) = c0 :: t) :
    clean_json_comments (c0 :: t) = c0 :: t := by
  simp only [clean_json_comments]
  rw [pySplitAux_no_sep (c0 :: t) (c0 :: t).length [] hnl]
  simp only [List.reverse_nil, List.nil_append, List.map_cons, List.map_nil]
  rw [cleanLine_id hsl]
  rw [List.filter_cons]
  rw [if_pos (by rw [hstrip]; simp)]
  rfl

/-! #### `pyStrip` is the identity on a braced payload -/

theorem dropPyWs_not_ws {c : Char} {t : Chars} (h : isPyWs c = false) :
    dropPyWs (c :: t) = c :: t := by
  simp [dropPyWs, h]

theorem pyStrip_brace (mid : Chars) :
    pyStrip ('\x7b' :: (mid ++ ['\x7d'])) = '\x7b' :: (mid ++ ['\x7d']) := by
  have h1 : ('\x7b' :: (mid ++ ['\x7d'])).reverse = '\x7d' :: (mid.reverse ++ ['\x7b']) := by
    simp
  have h2 : ('\x7d' :: (mid.reverse ++ ['\x7b'])).reverse = '\x7b' :: (mid ++ ['\x7d']) := by
    simp
  simp only [pyStrip]
  rw [h1, dropPyWs_not_ws (by decide), h2, dropPyWs_not_ws (by decide)]

theorem dumps_claimsObj_braced (X : List Json) :
    Json.dumps (claimsObj X) =
      '\x7b' :: (('"' :: 'c' :: 'l' :: 'a' :: 'i' :: 'm' :: 's' :: '"' :: ':' :: ' ' :: '[' ::
        (Json.dumpsList X ++ [']'])) ++ ['\x7d']) := by
  rw [dumps_claimsObj]
  simp

theorem pyStrip_dumps_claimsObj (X : List Json) :
    pyStrip (Json.dumps (claimsObj X)) = Json.dumps (claimsObj X) := by
  rw [dumps_claimsObj_braced, pyStrip_brace]

theorem concat_braced (A B : List Int) :
    Json.dumps (claimsObj (intsArr A)) ++ ' ' :: Json.dumps (claimsObj (intsArr B)) =
      '\x7b' :: (('"' :: 'c' :: 'l' :: 'a' :: 'i' :: 'm' :: 's' :: '"' :: ':' :: ' ' :: '[' ::
        (Json.dumpsList (intsArr A) ++ ']' :: '\x7d' :: ' ' ::
          '\x7b' :: '"' :: 'c' :: 'l' :: 'a' :: 'i' :: 'm' :: 's' :: '"' :: ':' :: ' ' :: '[' ::
            (Json.dumpsList (intsArr B) ++ [']']))) ++ ['\x7d']) := by
  rw [dumps_claimsObj, dumps_claimsObj]
  simp

theorem pyStrip_concat (A B : List Int) :
    pyStrip (Json.dumps (claimsObj (intsArr A)) ++ ' ' :: Json.dumps (claimsObj (intsArr B))) =
      Json.dumps (claimsObj (intsArr A)) ++ ' ' :: Json.dumps (claimsObj (intsArr B)) := by
  rw [concat_braced, pyStrip_brace]

/-! #### Strategies 2 and 3 do not fire on the payload -/

theorem searchFence_none : ∀ (cs : Chars), (∀ c ∈ cs, c ≠ '`') → searchFence cs = none := by
  intro cs
  induction cs with
  | nil => intro _; rfl
  | cons c rest ih =>
    intro h
    have hc : ('`' : Char) ≠ c := Ne.symm (h c (by simp))
    simp only [searchFence, startsWithChars_cons_ne hc]
    rw [if_neg (by simp)]
    exact ih (fun c' hc' => h c' (by simp [hc']))

theorem searchThink_none : ∀ (cs : Chars), (∀ c ∈ cs, c ≠ '<') → searchThink cs = none := by
  intro cs
  induction cs with
  | nil => intro _; rfl
  | cons c rest ih =>
    intro h
    have hc : ('<' : Char) ≠ c := Ne.symm (h c (by simp))
    simp only [searchThink, startsWithChars_cons_ne hc]
    rw [if_neg (by simp)]
    exact ih (fun c' hc' => h c' (by simp [hc']))

/-! #### Strategy 1 (with comment cleaning) fails on the payload -/

theorem tryLoads_concat_none (A B : List Int) :
    tryLoadsWithCleaning (Json.dumps (claimsObj (intsArr A)) ++
      ' ' :: Json.dumps (claimsObj (intsArr B))) = none := by
  have hload := loadsChars_concat_none A B
  have hshape := concat_braced A B
  simp only [tryLoadsWithCleaning, hload]
  rw [hshape]
  rw [clean_json_comments_id _ _
    (fun c hc => concat_payload_ne A B (by decide) (by decide) c (hshape.symm ▸ hc))
    (fun c hc => concat_payload_ne A B (by decide) (by decide) c (hshape.symm ▸ hc))
    (pyStrip_brace _)]
  rw [← hshape]
  exact hload

/-! #### Strategy 4: the claims-object pattern on the payload -/

theorem lazyClaimsClose_skip : ∀ (seg : Chars) (acc tl : Chars),
    (∀ c ∈ seg, c ≠ ']') →
    lazyClaimsClose acc (seg ++ tl) = lazyClaimsClose (seg.reverse ++ acc) tl := by
  intro seg
  induction seg with
  | nil => intro acc tl _; simp
  | cons c s ih =>
    intro acc tl h
    have hc : c ≠ ']' := h c (by simp)
    simp only [List.cons_append, lazyClaimsClose]
    rw [if_neg hc]
    simp only [List.append_eq]
    rw [ih (c :: acc) tl (fun d hd => h d (by simp [hd]))]
    simp

theorem dumpsList_ints_no_bracket (X : List Int) :
    ∀ c ∈ Json.dumpsList (intsArr X), c ≠ ']' := by
  intro c hc
  rcases dumpsList_ints_chars2 X c hc with h | h
  · intro he; subst he; rcases h with h | h | h <;> revert h <;> decide
  · subst h; decide

theorem lazyClaimsClose_close (acc tl : Chars) :
    lazyClaimsClose acc (']' :: '\x7d' :: tl) = some (acc.reverse ++ [']', '\x7d'], tl) := by
  rw [lazyClaimsClose]
  simp [isPyWs]

theorem lazyClaimsClose_ints (X : List Int) (acc tl : Chars) :
    lazyClaimsClose acc (Json.dumpsList (intsArr X) ++ ']' :: '\x7d' :: tl) =
      some (acc.reverse ++ (Json.dumpsList (intsArr X) ++ [']', '\x7d']), tl) := by
  rw [lazyClaimsClose_skip (Json.dumpsList (intsArr X)) acc (']' :: '\x7d' :: tl)
    (dumpsList_ints_no_bracket X)]
  rw [lazyClaimsClose_close]
  simp [List.reverse_append, List.append_assoc]

theorem claimsMatchAt_dump (X : List Int) (tl : Chars) :
    claimsMatchAt (Json.dumps (claimsObj (intsArr X)) ++ tl) =
      some (Json.dumps (claimsObj (intsArr X)), tl) := by
  have hls : Json.dumps (claimsObj (intsArr X)) ++ tl =
      '\x7b' :: '"' :: 'c' :: 'l' :: 'a' :: 'i' :: 'm' :: 's' :: '"' :: ':' :: ' ' :: '[' ::
        (Json.dumpsList (intsArr X) ++ ']' :: '\x7d' :: tl) := by
    rw [dumps_claimsObj]; simp
  rw [hls]
  have hred : claimsMatchAt
      ('\x7b' :: '"' :: 'c' :: 'l' :: 'a' :: 'i' :: 'm' :: 's' :: '"' :: ':' :: ' ' :: '[' ::
        (Json.dumpsList (intsArr X) ++ ']' :: '\x7d' :: tl)) =
      (lazyClaimsClose [] (Json.dumpsList (intsArr X) ++ ']' :: '\x7d' :: tl)).map
        (fun p => (claimsKeyChars ++ [' '] ++ '[' :: p.1, p.2)) := rfl
  rw [hred, lazyClaimsClose_ints X [] tl]
  rw [dumps_claimsObj]
  simp [claimsKeyChars]

theorem findallClaimsAux_nil : ∀ fuel, findallClaimsAux fuel [] = [] := by
  intro fuel; rcases fuel with _ | fuel <;> rfl

theorem findallClaimsAux_found {cs m after : Chars} {fuel : Nat}
    (h : claimsMatchAt cs = some (m, after)) (hne : cs ≠ []) :
    findallClaimsAux (fuel + 1) cs = m :: findallClaimsAux fuel after := by
  rcases cs with _ | ⟨c, r⟩
  · exact absurd rfl hne
  · simp only [findallClaimsAux, h]

theorem claimsMatchAt_not_start {cs : Chars}
    (h : startsWithChars claimsKeyChars cs = false) : claimsMatchAt cs = none := by
  simp [claimsMatchAt, h]

theorem findallClaimsAux_miss {c : Char} {r : Chars} {fuel : Nat}
    (h : claimsMatchAt (c :: r) = none) :
    findallClaimsAux (fuel + 1) (c :: r) = findallClaimsAux fuel r := by
  simp only [findallClaimsAux, h]

theorem findallClaims_concat (A B : List Int) :
    findallClaims (Json.dumps (claimsObj (intsArr A)) ++
        ' ' :: Json.dumps (claimsObj (intsArr B))) =
      [Json.dumps (claimsObj (intsArr A)), Json.dumps (claimsObj (intsArr B))] := by
  rw [findallClaims]
  obtain ⟨f, hf⟩ : ∃ f, (Json.dumps (claimsObj (intsArr A)) ++
      ' ' :: Json.dumps (claimsObj (intsArr B))).length = f + 3 := by
    refine ⟨(Json.dumps (claimsObj (intsArr A)) ++
      ' ' :: Json.dumps (claimsObj (intsArr B))).length - 3, ?_⟩
    rw [List.length_append, List.length_cons, dumps_claimsObj_length, dumps_claimsObj_length]
    omega
  rw [hf]
  rw [findallClaimsAux_found
    (claimsMatchAt_dump A (' ' :: Json.dumps (claimsObj (intsArr B))))
    (by rw [dumps_claimsObj]; simp)]
  have hmiss : claimsMatchAt (' ' :: Json.dumps (claimsObj (intsArr B))) = none :=
    claimsMatchAt_not_start (startsWithChars_cons_ne (by decide))
  rw [findallClaimsAux_miss hmiss]
  have h3 := claimsMatchAt_dump B []
  rw [List.append_nil] at h3
  rw [findallClaimsAux_found h3 (by rw [dumps_claimsObj]; simp)]
  rw [findallClaimsAux_nil]

theorem getClaimsList_claimsObj (L : List Json) : getClaimsList (claimsObj L) = some L := rfl

theorem intsArr_append (A B : List Int) : intsArr (A ++ B) = intsArr A ++ intsArr B :=
  List.map_append _ _ _

theorem extract_multiple_concat (A B : List Int) (hne : A ++ B ≠ []) :
    extract_multiple_json_objects (Json.dumps (claimsObj (intsArr A)) ++
        ' ' :: Json.dumps (claimsObj (intsArr B))) =
      some (claimsObj (intsArr (A ++ B))) := by
  simp only [extract_multiple_json_objects, findallClaims_concat]
  rw [if_pos (by simp)]
  simp only [List.foldl_cons, List.foldl_nil]
  simp only [pyStrip_dumps_claimsObj, loadsChars_claimsObjDump, getClaimsList_claimsObj]
  have hemp : (([] : List Json) ++ intsArr A ++ intsArr B).isEmpty = false := by
    simp only [List.nil_append, ← intsArr_append]
    rcases hx : A ++ B with _ | ⟨x, xs⟩
    · exact absurd hx hne
    · rfl
  rw [if_pos (by rw [hemp]; simp)]
  simp [claimsObj, intsArr_append]

/-! #### Top-level assembly for the claims-merge property -/

theorem concatClaims_toList (X Y : List Json) :
    (concatClaims X Y).toList =
      Json.dumps (claimsObj X) ++ ' ' :: Json.dumps (claimsObj Y) := by
  have h : (concatClaims X Y).toList =
      (Json.dumps (claimsObj X) ++ [' ']) ++ Json.dumps (claimsObj Y) := rfl
  rw [h]
  simp

theorem markdown_concat_none (A B : List Int) :
    extract_json_from_markdown (Json.dumps (claimsObj (intsArr A)) ++
      ' ' :: Json.dumps (claimsObj (intsArr B))) = none := by
  simp only [extract_json_from_markdown,
    searchFence_none _ (concat_payload_ne A B (by decide) (by decide))]
  rfl

theorem think_concat_none (A B : List Int) :
    extract_json_after_think_tags (Json.dumps (claimsObj (intsArr A)) ++
      ' ' :: Json.dumps (claimsObj (intsArr B))) = none := by
  simp only [extract_json_after_think_tags,
    searchThink_none _ (concat_payload_ne A B (by decide) (by decide))]
  rfl

theorem jsonTruthy_claimsObj (L : List Json) : jsonTruthy (claimsObj L) = true := rfl

/-- C8, counterexample: the claim quantifies over arbitrary JSON arrays,
but for A = [{"a": ["\x7d"]}] and B = [1] extraction from
`toJSON({"claims": A}) + " " + toJSON({"claims": B})` returns
`{"claims": [1]}`, not `{"claims": A ++ B}`: the closing brace inside
A's string element makes the lazy `\[.*?\]\s*\}` pattern cut A's match
short, so A's claims are dropped (json_response_parser.py:71-76). -/
theorem claim8_counterexample :
    extract_json_from_response
        (concatClaims [.obj [("a", .arr [.str "\x7d"])]] [.num 1]) =
      .ok (claimsObj [.num 1]) ∧
    claimsObj [.num 1] ≠
      claimsObj ([.obj [("a", .arr [.str "\x7d"])]] ++ [.num 1]) := by
  constructor
  · rfl
  · intro h
    simp [claimsObj] at h

/-- C8, amended: for every pair of INTEGER arrays A and B,
`extract_json_from_response` on the serialization of `{"claims": A}`,
a single space, then `{"claims": B}` returns exactly
`{"claims": A ++ B}`: strategy 1 fails with Extra data, strategies 2 and
3 find no fence or think tag, and strategy 4 finds both objects and
concatenates their claims arrays in order (for A = B = [] strategy 4
collects nothing and strategy 7 re-parses the first object, whose claims
array equals A ++ B as well). -/
theorem claim8_amended (A B : List Int) :
    extract_json_from_response (concatClaims (intsArr A) (intsArr B)) =
      .ok (claimsObj (intsArr (A ++ B))) := by
  by_cases hAB : A = [] ∧ B = []
  · obtain ⟨rfl, rfl⟩ := hAB
    rfl
  · have hne : A ++ B ≠ [] := fun h => hAB (List.append_eq_nil.mp h)
    simp only [extract_json_from_response, concatClaims_toList]
    rw [if_neg (by rw [dumps_claimsObj]; simp)]
    rw [pyStrip_concat]
    rw [tryLoads_concat_none]
    rw [markdown_concat_none, think_concat_none, extract_multiple_concat A B hne]
    simp only [firstTruthy, jsonTruthy_claimsObj]
    rfl

theorem claim8_amended_witness :
    extract_json_from_response (concatClaims (intsArr [1, 2]) (intsArr [30])) =
      .ok (claimsObj (intsArr [1, 2, 30])) :=
  claim8_amended [1, 2] [30]

end TTTC
